import Mathlib

/-!
# DreamCandies: extraction of customer data from three CSV master files

A shallow embedding of `src/dream_candies.cpp` and a verification of its
filtered-extraction pipeline.

Modelling conventions.

* A `std::string` and the content of a file are lists of characters
  (`List Char`); a character stands for one byte, equality and order of
  characters are equality and (unsigned) order of their codes.
* A file on disk is an `Option (List Char)`: `none` when the file does not
  exist, `some content` otherwise.
* The call `s.substr(1, s.length() - 2)` throws `std::out_of_range` when `s`
  is empty.  A function that can throw returns an `Option`; `none` means that
  the exception left the function, so that it did not return.
* `size_t` is 64 bits wide: `s.length() - 2` is computed modulo `2 ^ 64`.
* An input stream is its unread characters together with `eofbit` and
  `failbit`; `std::getline` is modelled on that state as the C++ standard
  describes it (the string is erased only when the stream was good, `failbit`
  is raised when nothing, not even a delimiter, could be extracted).
* Opening a `std::ofstream` creates or truncates the destination; the
  directory `extracted_files/` is taken to exist and to be writable.
-/

namespace DreamCandies

/-! ## Strings -/

/-- The order `operator<` of `std::string`: lexicographic on character codes. -/
def strLt : List Char → List Char → Bool
  | [], [] => false
  | [], _ :: _ => true
  | _ :: _, [] => false
  | a :: as, b :: bs =>
    if a.toNat < b.toNat then true
    else if b.toNat < a.toNat then false
    else strLt as bs

/-- The three-way `std::string::compare`: negative, zero or positive. -/
def compare (a b : List Char) : Int :=
  if strLt a b then -1 else if strLt b a then 1 else 0

/-- Subtraction of `size_t` values, modulo `2 ^ 64`. -/
def size_sub (a b : Nat) : Nat := (a + 2 ^ 64 - b % 2 ^ 64) % 2 ^ 64

/-- The call `s.substr(pos, count)`: `none` stands for `std::out_of_range`
(thrown when `pos > s.size()`), otherwise the characters from `pos` on, at
most `count` of them. -/
def substr (s : List Char) (pos count : Nat) : Option (List Char) :=
  if s.length < pos then none else some ((s.drop pos).take count)

/-- The expression `s.substr(1, s.length() - 2)` that trims the quotation
marks of a field. -/
def trim_quotes (s : List Char) : Option (List Char) :=
  substr s 1 (size_sub s.length 2)

/-- A string with its first and its last character removed. -/
def strip (s : List Char) : List Char := (s.drop 1).dropLast

/-! ## The algorithms of the standard library used on the key vectors -/

/-- Insertion of one string into an ascending list, before the first element
that is not smaller. -/
def sort_insert (a : List Char) : List (List Char) → List (List Char)
  | [] => [a]
  | b :: l => if strLt b a then b :: sort_insert a l else a :: b :: l

/-- The call `std::sort(v.begin(), v.end())`: the ascending rearrangement of
the vector (for a total order there is exactly one), computed by insertion. -/
def sort : List (List Char) → List (List Char)
  | [] => []
  | a :: l => sort_insert a (sort l)

/-- The call `v.erase(std::unique(v.begin(), v.end()), v.end())`: of every run
of consecutive equal elements only the first is kept. -/
def unique : List (List Char) → List (List Char)
  | [] => []
  | [a] => [a]
  | a :: b :: l => if a = b then unique (b :: l) else a :: unique (b :: l)

/-- The loop of `std::lower_bound` on the range `[first, first + len)` of `v`;
the first argument bounds the number of iterations (`len` suffices, as every
iteration makes `len` smaller). -/
def lower_bound_loop (v : List (List Char)) (val : List Char) : Nat → Nat → Nat → Nat
  | 0, first, _ => first
  | fuel + 1, first, len =>
    if 0 < len then
      let half := len / 2
      let middle := first + half
      if strLt (v.getD middle []) val then
        lower_bound_loop v val fuel (middle + 1) (len - half - 1)
      else
        lower_bound_loop v val fuel first half
    else first

/-- The call `std::lower_bound(v.begin(), v.end(), val)`, as an index. -/
def lower_bound (v : List (List Char)) (val : List Char) : Nat :=
  lower_bound_loop v val v.length 0 v.length

/-- The call `std::binary_search(v.begin(), v.end(), val)`:
`i != last && !(val < *i)` for `i` the lower bound. -/
def binary_search (v : List (List Char)) (val : List Char) : Bool :=
  let i := lower_bound v val
  decide (i ≠ v.length) && !strLt val (v.getD i [])

/-- Ascending order of a vector of strings. -/
def Ascending (l : List (List Char)) : Prop := l.Pairwise (fun a b => strLt b a = false)

/-- Strictly ascending order of a vector of strings. -/
def StrictAscending (l : List (List Char)) : Prop := l.Pairwise (fun a b => strLt a b = true)

/-! ## Input streams -/

/-- The state of a `std::istream`: its unread characters and two state bits. -/
structure IStream where
  buf : List Char
  eofbit : Bool
  failbit : Bool
deriving DecidableEq, Repr

/-- The test `stream.good()`. -/
def IStream.good (s : IStream) : Bool := !s.eofbit && !s.failbit

/-- Construction of a `std::ifstream` on a file: when the file cannot be
opened the stream starts with `failbit` set. -/
def ifstream : Option (List Char) → IStream
  | none => ⟨[], false, true⟩
  | some content => ⟨content, false, false⟩

/-- Construction of a `std::stringstream` on a string. -/
def stringstream (s : List Char) : IStream := ⟨s, false, false⟩

/-- The extraction step of `std::getline` on a good stream: characters are
taken up to the delimiter, which is consumed and not stored, or up to the end
of the data.  The result is the string read, the characters left, and whether
the end of the data was hit. -/
def take_line (delim : Char) : List Char → List Char × List Char × Bool
  | [] => ([], [], true)
  | c :: cs =>
    if c = delim then ([], cs, false)
    else ((c :: (take_line delim cs).1), (take_line delim cs).2.1, (take_line delim cs).2.2)

/-- The call `std::getline(stream, str, delim)`.  When the stream is not good
the string is left alone and `failbit` is set; otherwise the string is erased
and filled by `take_line`, `eofbit` is set when the data ended, and `failbit`
when no character at all was extracted.  The loop test on the returned stream
is `!failbit`. -/
def getline (s : IStream) (str : List Char) (delim : Char) : IStream × List Char :=
  if s.good then
    (⟨(take_line delim s.buf).2.1, (take_line delim s.buf).2.2, s.buf.isEmpty⟩,
      (take_line delim s.buf).1)
  else (⟨s.buf, s.eofbit, true⟩, str)

/-- The loop `while (getline(stream, line)) body`, the body acting on a state
and possibly throwing.  The first argument bounds the number of iterations;
one more than the number of unread characters is always enough.  The variable
`line` is not threaded through: a call of `getline` that leaves it alone also
ends the loop. -/
def while_getline {σ : Type} (body : σ → List Char → Option σ) :
    Nat → IStream → σ → Option σ
  | 0, _, st => some st
  | fuel + 1, s, st =>
    if (getline s [] '\n').1.failbit then some st
    else
      match body st (getline s [] '\n').2 with
      | none => none
      | some st1 => while_getline body fuel (getline s [] '\n').1 st1

/-- The strings that successive calls `getline(stream, line)` deliver until
one fails. -/
def read_lines : Nat → IStream → List (List Char)
  | 0, _ => []
  | fuel + 1, s =>
    if (getline s [] '\n').1.failbit then []
    else (getline s [] '\n').2 :: read_lines fuel (getline s [] '\n').1

/-- The number of iterations granted to a reading loop on a stream. -/
def IStream.fuel (s : IStream) : Nat := s.buf.length + 1

/-- The lines of a file, as `getline` reads them; a missing file has none. -/
def lines (f : Option (List Char)) : List (List Char) :=
  read_lines (ifstream f).fuel (ifstream f)

/-- The first line of a file; the empty string when there is none. -/
def first_line (f : Option (List Char)) : List Char := (lines f).headD []

/-- The lines of a file after the first one. -/
def data_lines (f : Option (List Char)) : List (List Char) := (lines f).tail

/-- The first comma-delimited field of a line. -/
def first_field (line : List Char) : List Char := (take_line ',' line).1

/-- The second comma-delimited field of a line (empty when there is none). -/
def second_field (line : List Char) : List Char :=
  (take_line ',' (take_line ',' line).2.1).1

/-- The text of a file made of the given lines, each ended by a newline. -/
def unlines : List (List Char) → List Char
  | [] => []
  | l :: ls => l ++ '\n' :: unlines ls

/-- The value of `s.substr(1, s.length() - 2)` when it does not throw. -/
def trim_value (s : List Char) : List Char := (s.drop 1).take (size_sub s.length 2)

/-! ## The program -/

/-- The header `"CUSTOMER_CODE"` of the sample file. -/
def SAMPLE_HEADER : List Char := "\"CUSTOMER_CODE\"".toList

/-- The header of `original_files/customer.csv`. -/
def CUSTOMER_HEADER : List Char := "\"CUSTOMER_CODE\",\"FIRSTNAME\",\"LASTNAME\"".toList

/-- The header of `original_files/invoice.csv`. -/
def INVOICE_HEADER : List Char :=
  "\"CUSTOMER_CODE\",\"INVOICE_CODE\",\"AMOUNT\",\"DATE\"".toList

/-- The header of `original_files/invoice_item.csv`. -/
def INVOICE_ITEM_HEADER : List Char :=
  "\"INVOICE_CODE\",\"ITEM_CODE\",\"AMOUNT\",\"QUANTITY\"".toList

/-- The six files the extraction works on: the three master files under
`original_files/` and the three destinations under `extracted_files/`. -/
structure Files where
  customer : Option (List Char)
  invoice : Option (List Char)
  invoice_item : Option (List Char)
  extracted_customer : Option (List Char)
  extracted_invoice : Option (List Char)
  extracted_invoice_item : Option (List Char)
deriving DecidableEq, Repr

/-- Body of the reading loop of `set_customer_codes`:
`customer_codes.push_back(line.substr(1, line.length() - 2))`. -/
def set_customer_codes_body (customer_codes : List (List Char)) (line : List Char) :
    Option (List (List Char)) :=
  match trim_quotes line with
  | none => none
  | some code => some (customer_codes ++ [code])

/-- The function `set_customer_codes`: the argument is the content of the file
at `customer_sample_path` and the vector passed by reference; the result is
the returned boolean and the vector afterwards. -/
def set_customer_codes (customer_sample : Option (List Char))
    (customer_codes : List (List Char)) : Option (Bool × List (List Char)) :=
  let hd := getline (ifstream customer_sample) [] '\n'
  if compare hd.2 SAMPLE_HEADER ≠ 0 then some (false, customer_codes)
  else
    match while_getline set_customer_codes_body hd.1.fuel hd.1 customer_codes with
    | none => none
    | some codes => some (true, unique (sort codes))

/-- Body of the copying loop of `extract_customers` and of
`extract_invoice_items`, on the text written so far: the first field is read
from a string stream on the line, trimmed and searched; a line that is found
is written, followed by a newline. -/
def copy_body (codes : List (List Char)) (out : List Char) (line : List Char) :
    Option (List Char) :=
  let rd := getline (stringstream line) [] ','
  if rd.1.failbit then some out
  else
    match trim_quotes rd.2 with
    | none => none
    | some key =>
      if binary_search codes key then some (out ++ line ++ ['\n']) else some out

/-- The function `extract_customers`. -/
def extract_customers (customer_codes : List (List Char)) (fs : Files) :
    Option (Bool × Files) :=
  let hd := getline (ifstream fs.customer) [] '\n'
  if compare hd.2 CUSTOMER_HEADER ≠ 0 then
    some (false, { fs with extracted_customer := some [] })
  else
    match while_getline (copy_body customer_codes) hd.1.fuel hd.1 (hd.2 ++ ['\n']) with
    | none => none
    | some out => some (true, { fs with extracted_customer := some out })

/-- The function `extract_invoice_items`; the vector `invoice_codes` is passed
by reference and is returned as it is left. -/
def extract_invoice_items (invoice_codes : List (List Char)) (fs : Files) :
    Option (Bool × List (List Char) × Files) :=
  let codes := unique (sort invoice_codes)
  let hd := getline (ifstream fs.invoice_item) [] '\n'
  if compare hd.2 INVOICE_ITEM_HEADER ≠ 0 then
    some (false, codes, { fs with extracted_invoice_item := some [] })
  else
    match while_getline (copy_body codes) hd.1.fuel hd.1 (hd.2 ++ ['\n']) with
    | none => none
    | some out => some (true, codes, { fs with extracted_invoice_item := some out })

/-- Body of the loop of `extract_invoices_and_items`, on the text written so
far and the vector `invoice_codes`.  The second `getline` works on the stream
and on the variable `element` as the first one left them. -/
def invoice_body (customer_codes : List (List Char))
    (st : List Char × List (List Char)) (line : List Char) :
    Option (List Char × List (List Char)) :=
  let rd := getline (stringstream line) [] ','
  if rd.1.failbit then some st
  else
    match trim_quotes rd.2 with
    | none => none
    | some key =>
      if binary_search customer_codes key then
        match trim_quotes (getline rd.1 rd.2 ',').2 with
        | none => none
        | some code => some (st.1 ++ line ++ ['\n'], st.2 ++ [code])
      else some st

/-- The function `extract_invoices_and_items`. -/
def extract_invoices_and_items (customer_codes : List (List Char)) (fs : Files) :
    Option (Bool × Files) :=
  let hd := getline (ifstream fs.invoice) [] '\n'
  if compare hd.2 INVOICE_HEADER ≠ 0 then
    some (false, { fs with extracted_invoice := some [] })
  else
    match while_getline (invoice_body customer_codes) hd.1.fuel hd.1 (hd.2 ++ ['\n'], []) with
    | none => none
    | some st =>
      match extract_invoice_items st.2 { fs with extracted_invoice := some st.1 } with
      | none => none
      | some r => some (r.1, r.2.2)

/-- The function `extract_customer_data`: the argument is the content of the
file at `customer_sample_path` and the state of the six files. -/
def extract_customer_data (customer_sample : Option (List Char)) (fs : Files) :
    Option (Bool × Files) :=
  match set_customer_codes customer_sample [] with
  | none => none
  | some (false, _) => some (false, fs)
  | some (true, customer_codes) =>
    match extract_customers customer_codes fs with
    | none => none
    | some (false, fs1) => some (false, fs1)
    | some (true, fs1) =>
      match extract_invoices_and_items customer_codes fs1 with
      | none => none
      | some (false, fs2) => some (false, fs2)
      | some (true, fs2) => some (true, fs2)

/-! ## What the loops do with one line -/

/-- Whether a copying loop keeps a line for a vector of keys: the first field
is not empty and its trimmed value is one of the keys. -/
def keeps (codes : List (List Char)) (line : List Char) : Bool :=
  decide (first_field line ≠ []) && decide (trim_value (first_field line) ∈ codes)

/-- Whether a copying loop gets past a line without an exception: the line
does not begin with a comma. -/
def copy_safe (line : List Char) : Bool := decide (line.head? ≠ some ',')

/-- The string from which the loop of `extract_invoices_and_items` takes the
invoice code of a line it keeps: the second field when the line has a comma,
and otherwise the first field, which the failed second `getline` leaves in
`element`. -/
def harvest_field (line : List Char) : List Char :=
  if ',' ∈ line then second_field line else first_field line

/-- Whether the loop of `extract_invoices_and_items` gets past a line without
an exception. -/
def invoice_safe (codes : List (List Char)) (line : List Char) : Bool :=
  copy_safe line && (!keeps codes line || decide (harvest_field line ≠ []))

/-- The text a copying loop produces from a master file under a header check
that passed: the header and the lines kept for the keys, a newline after each. -/
def extracted_text (header : List Char) (codes : List (List Char))
    (f : Option (List Char)) : List Char :=
  unlines (header :: (data_lines f).filter (keeps codes))

/-- The invoice codes collected from the invoice lines kept for a key vector. -/
def harvest (codes : List (List Char)) (ls : List (List Char)) : List (List Char) :=
  (ls.filter (keeps codes)).map (fun l => trim_value (harvest_field l))

/-! ## The run as a whole, and well-formed input -/

/-- The customer codes read from the sample file, as `set_customer_codes`
trims them, in the order of the file. -/
def seed_codes (seed : Option (List Char)) : List (List Char) :=
  (data_lines seed).map trim_value

/-- The files after a run in which the three header checks passed. -/
def extracted_files (seed : Option (List Char)) (fs : Files) : Files :=
  { fs with
    extracted_customer := some (extracted_text CUSTOMER_HEADER (seed_codes seed) fs.customer)
    extracted_invoice := some (extracted_text INVOICE_HEADER (seed_codes seed) fs.invoice)
    extracted_invoice_item := some (extracted_text INVOICE_ITEM_HEADER
      (harvest (seed_codes seed) (data_lines fs.invoice)) fs.invoice_item) }

/-- Every data line of the sample file is non-empty, so that its quotation
marks can be trimmed. -/
def WellFormedSeed (seed : Option (List Char)) : Prop :=
  ∀ l ∈ data_lines seed, l ≠ []

/-- Every data line of a master file has a non-empty first field. -/
def WellFormedMaster (f : Option (List Char)) : Prop :=
  ∀ l ∈ data_lines f, first_field l ≠ []

/-- No data line of a master file begins with a comma: this is what a copying
loop needs to get through the file without an exception (an empty line is
skipped, a line that begins with a comma has an empty first field, on which
`substr` throws). -/
def NoLeadingComma (f : Option (List Char)) : Prop :=
  ∀ l ∈ data_lines f, l.head? ≠ some ','

/-- Every data line of the invoice master has non-empty first and second
fields. -/
def WellFormedInvoice (f : Option (List Char)) : Prop :=
  ∀ l ∈ data_lines f, first_field l ≠ [] ∧ second_field l ≠ []

/-- Every data line of a file is shorter than `2 ^ 64` characters. -/
def Sized (f : Option (List Char)) : Prop :=
  ∀ l ∈ data_lines f, l.length < 2 ^ 64

/-- No data line of the invoice master raises an exception in the loop of
`extract_invoices_and_items` run with a key vector: no line begins with a
comma, and a line that is kept and has a comma has a non-empty second field. -/
def InvoiceSafe (codes : List (List Char)) (f : Option (List Char)) : Prop :=
  ∀ l ∈ data_lines f,
    l.head? ≠ some ',' ∧ (keeps codes l = true → ',' ∈ l → second_field l ≠ [])

/-! ## Properties of the extracted files -/

/-- Two fields can be trimmed of their quotation marks and give the same
code. -/
def decoded_eq (a b : List Char) : Prop :=
  trim_quotes a ≠ none ∧ trim_quotes a = trim_quotes b

/-- The soundness of the transitive closure, on the files a run leaves: every
extracted invoice item row carries the invoice code (second field) of an
extracted invoice row, and every extracted invoice row carries the code of a
data line of the sample file. -/
def TransitiveSound (seed : Option (List Char)) (fs1 : Files) : Prop :=
  (∀ row ∈ data_lines fs1.extracted_invoice_item,
    ∃ r ∈ data_lines fs1.extracted_invoice, decoded_eq (first_field row) (second_field r)) ∧
  (∀ r ∈ data_lines fs1.extracted_invoice,
    ∃ s ∈ data_lines seed, decoded_eq (first_field r) s)

/-- An invoice item row belongs to the transitive closure of the seed: its
trimmed first field is the trimmed second field of an invoice row whose
trimmed first field is a seed code. -/
def in_closure (seed invoice : Option (List Char)) (row : List Char) : Prop :=
  ∃ r ∈ data_lines invoice, trim_value (first_field r) ∈ seed_codes seed ∧
    trim_value (first_field row) = trim_value (second_field r)

instance in_closure_decidable (seed invoice : Option (List Char)) (row : List Char) :
    Decidable (in_closure seed invoice row) := by
  unfold in_closure
  infer_instance

/-- Each of the three extracted files is its header line followed by one
newline, with no data row. -/
def header_only (fs1 : Files) : Prop :=
  fs1.extracted_customer = some (CUSTOMER_HEADER ++ ['\n']) ∧
  fs1.extracted_invoice = some (INVOICE_HEADER ++ ['\n']) ∧
  fs1.extracted_invoice_item = some (INVOICE_ITEM_HEADER ++ ['\n'])

/-! ## The fixture of the test suite, and other inputs -/

/-- The sample file of the fixture. -/
def DEFAULT_CUSTOMER_SAMPLE_FILE : List Char :=
  ("\"CUSTOMER_CODE\"\n" ++
   "\"CUST0000010231\"\n" ++
   "\"CUST0000010235\"\n").toList

/-- The customer master of the fixture. -/
def DEFAULT_CUSTOMER_FILE : List Char :=
  ("\"CUSTOMER_CODE\",\"FIRSTNAME\",\"LASTNAME\"\n" ++
   "\"CUST0000010231\",\"Maria\",\"Alba\"\n" ++
   "\"CUST0000010235\",\"George\",\"Lucas\"\n").toList

/-- The invoice master of the fixture. -/
def DEFAULT_INVOICE_FILE : List Char :=
  ("\"CUSTOMER_CODE\",\"INVOICE_CODE\",\"AMOUNT\",\"DATE\"\n" ++
   "\"CUST0000010231\",\"IN0000001\",\"105.50\",\"01-Jan-2016\"\n" ++
   "\"CUST0000010235\",\"IN0000002\",\"186.53\",\"01-Jan-2016\"\n" ++
   "\"CUST0000010231\",\"IN0000003\",\"114.14\",\"01-Feb-2016\"\n").toList

/-- The invoice item master of the fixture. -/
def DEFAULT_INVOICE_ITEM_FILE : List Char :=
  ("\"INVOICE_CODE\",\"ITEM_CODE\",\"AMOUNT\",\"QUANTITY\"\n" ++
   "\"IN0000001\",\"MEIJI\",\"75.60\",\"100\"\n" ++
   "\"IN0000001\",\"POCKY\",\"10.40\",\"250\"\n" ++
   "\"IN0000001\",\"PUCCHO\",\"19.50\",\"40\"\n" ++
   "\"IN0000002\",\"MEIJI\",\"113.40\",\"150\"\n" ++
   "\"IN0000002\",\"PUCCHO\",\"73.13\",\"150\"\n" ++
   "\"IN0000003\",\"POCKY\",\"16.64\",\"400\"\n" ++
   "\"IN0000003\",\"PUCCHO\",\"97.50\",\"200\"\n").toList

/-- The files as `SetUp` of the test fixture leaves them; the destinations are
taken not to exist yet. -/
def DEFAULT_FILES : Files :=
  ⟨some DEFAULT_CUSTOMER_FILE, some DEFAULT_INVOICE_FILE, some DEFAULT_INVOICE_ITEM_FILE,
    none, none, none⟩

/-- The fixture with `original_files/invoice_item.csv` removed, as in the test
`invoice_item_file_does_not_exist`. -/
def FILES_WITHOUT_INVOICE_ITEM : Files :=
  { DEFAULT_FILES with invoice_item := none }

/-- The sample file of the test `subset_of_customers`. -/
def SUBSET_SAMPLE_FILE : List Char :=
  ("\"CUSTOMER_CODE\"\n" ++
   "\"CUST0000010235\"\n").toList

/-- A sample file with the one code `C1`. -/
def COMMALESS_SAMPLE_FILE : List Char :=
  ("\"CUSTOMER_CODE\"\n" ++
   "\"C1\"\n").toList

/-- Master files in which the one invoice row has no comma: it consists of the
customer code alone. -/
def COMMALESS_FILES : Files :=
  ⟨some ("\"CUSTOMER_CODE\",\"FIRSTNAME\",\"LASTNAME\"\n").toList,
   some ("\"CUSTOMER_CODE\",\"INVOICE_CODE\",\"AMOUNT\",\"DATE\"\n" ++
         "\"C1\"\n").toList,
   some ("\"INVOICE_CODE\",\"ITEM_CODE\",\"AMOUNT\",\"QUANTITY\"\n" ++
         "\"C1\",\"POCKY\",\"10.40\",\"250\"\n").toList,
   none, none, none⟩

/-- The sample file of the test `subset_of_customers2`. -/
def SUBSET2_SAMPLE_FILE : List Char :=
  ("\"CUSTOMER_CODE\"\n" ++
   "\"CUST0000010231\"\n").toList

/-- The invoice item file the test `subset_of_customers2` expects. -/
def SUBSET2_EXPECTED_INVOICE_ITEM : List Char :=
  ("\"INVOICE_CODE\",\"ITEM_CODE\",\"AMOUNT\",\"QUANTITY\"\n" ++
   "\"IN0000001\",\"MEIJI\",\"75.60\",\"100\"\n" ++
   "\"IN0000001\",\"POCKY\",\"10.40\",\"250\"\n" ++
   "\"IN0000001\",\"PUCCHO\",\"19.50\",\"40\"\n" ++
   "\"IN0000003\",\"POCKY\",\"16.64\",\"400\"\n" ++
   "\"IN0000003\",\"PUCCHO\",\"97.50\",\"200\"\n").toList

/-- The sample file of the test `duplicate_customer_codes`. -/
def DUPLICATE_SAMPLE_FILE : List Char :=
  ("\"CUSTOMER_CODE\"\n" ++
   "\"CUST0000010235\"\n" ++
   "\"CUST0000010231\"\n" ++
   "\"CUST0000010235\"\n").toList

/-- The fixture with the rows of `invoice.csv` in another order. -/
def PERMUTED_INVOICE_FILES : Files :=
  { DEFAULT_FILES with
    invoice := some
      ("\"CUSTOMER_CODE\",\"INVOICE_CODE\",\"AMOUNT\",\"DATE\"\n" ++
       "\"CUST0000010231\",\"IN0000003\",\"114.14\",\"01-Feb-2016\"\n" ++
       "\"CUST0000010231\",\"IN0000001\",\"105.50\",\"01-Jan-2016\"\n" ++
       "\"CUST0000010235\",\"IN0000002\",\"186.53\",\"01-Jan-2016\"\n").toList }

/-- The sample file of the test `no_matching_customers`. -/
def NO_MATCH_SAMPLE_FILE : List Char :=
  ("\"CUSTOMER_CODE\"\n" ++
   "\"CUST0000010000\"\n").toList

/-- A sample file with the header line and nothing else. -/
def HEADER_ONLY_SAMPLE_FILE : List Char :=
  ("\"CUSTOMER_CODE\"\n").toList

/-- A customer master whose one data row has no comma: it consists of the
quoted customer code alone. -/
def COMMALESS_CUSTOMER_FILES : Files :=
  { DEFAULT_FILES with
    customer := some
      ("\"CUSTOMER_CODE\",\"FIRSTNAME\",\"LASTNAME\"\n" ++
       "\"CUST0000010231\"\n").toList }

/-- The sample file of the test `incorrect_header_format`. -/
def BAD_HEADER_SAMPLE_FILE : List Char :=
  ("\"BAD_HEADER\"\n" ++
   "\"DATA1\"\n" ++
   "\"DATA2\"\n").toList

/-- The fixture with extracted files left over from an earlier run. -/
def FILES_WITH_OLD_OUTPUT : Files :=
  { DEFAULT_FILES with
    extracted_customer := some "old customers\n".toList
    extracted_invoice := some "old invoices\n".toList
    extracted_invoice_item := some "old items\n".toList }

/-- The fixture with a customer master whose header has another casing. -/
def BAD_CUSTOMER_HEADER_FILES : Files :=
  { FILES_WITH_OLD_OUTPUT with
    customer := some
      ("\"customer_code\",\"FIRSTNAME\",\"LASTNAME\"\n" ++
       "\"CUST0000010231\",\"Maria\",\"Alba\"\n").toList }

/-- The vector `invoice_codes` as the loop of `extract_invoices_and_items`
leaves it, at the point where `extract_invoice_items` is called on it (the
header check is taken to have passed); `none` when the loop raises an
exception. -/
def harvested_invoice_codes (customer_codes : List (List Char)) (fs : Files) :
    Option (List (List Char)) :=
  let hd := getline (ifstream fs.invoice) [] '\n'
  (while_getline (invoice_body customer_codes) hd.1.fuel hd.1 (hd.2 ++ ['\n'], [])).map
    Prod.snd

/-- Every invoice row that is kept for a key vector has a non-empty second
field. -/
def MatchedHaveSecondField (codes : List (List Char)) (f : Option (List Char)) : Prop :=
  ∀ l ∈ data_lines f, keeps codes l = true → second_field l ≠ []

/-- The shape of an extracted text for a header, a key vector and a master
file: it begins with the header and a newline, it is not empty and ends in a
newline, it is the concatenation of its lines each followed by one newline,
its first line is the header, and its data lines are exactly the data lines of
the master that are kept for the keys, unchanged and in the order of the
master.  In particular, when the last data line of the master is kept, the
text ends with that line followed by a newline. -/
def WellTerminated (header : List Char) (codes : List (List Char))
    (master : Option (List Char)) (text : List Char) : Prop :=
  (∃ rest, text = header ++ '\n' :: rest) ∧
  text ≠ [] ∧
  text.getLast? = some '\n' ∧
  unlines (lines (some text)) = text ∧
  first_line (some text) = header ∧
  data_lines (some text) = (data_lines master).filter (keeps codes) ∧
  (∀ init l, data_lines master = init ++ [l] → keeps codes l = true →
    text = unlines (header :: init.filter (keeps codes)) ++ (l ++ ['\n']))

/-- A customer master whose last line is not ended by a newline. -/
def UNTERMINATED_CUSTOMER_FILES : Files :=
  { DEFAULT_FILES with
    customer := some
      ("\"CUSTOMER_CODE\",\"FIRSTNAME\",\"LASTNAME\"\n" ++
       "\"CUST0000010231\",\"Maria\",\"Alba\"\n" ++
       "\"CUST0000010235\",\"George\",\"Lucas\"").toList }

/-- The files of a second run in which the three extracted files of a first
run take the place of the three masters. -/
def reuse_as_masters (fs1 : Files) : Files :=
  { fs1 with
    customer := fs1.extracted_customer
    invoice := fs1.extracted_invoice
    invoice_item := fs1.extracted_invoice_item }

/-- A sample file with a blank line between two codes. -/
def BLANK_LINE_SAMPLE_FILE : List Char :=
  ("\"CUSTOMER_CODE\"\n" ++
   "\"CUST0000010231\"\n" ++
   "\n" ++
   "\"CUST0000010235\"\n").toList

/-! ## The order of strings -/

theorem strLt_irrefl (a : List Char) : strLt a a = false := by
  induction a with
  | nil => rfl
  | cons c cs ih => simp [strLt, ih]

theorem strLt_trans {a b c : List Char} (hab : strLt a b = true) (hbc : strLt b c = true) :
    strLt a c = true := by
  induction a generalizing b c with
  | nil =>
    cases b with
    | nil => simp [strLt] at hab
    | cons y ys =>
      cases c with
      | nil => simp [strLt] at hbc
      | cons z zs => simp [strLt]
  | cons x xs ih =>
    cases b with
    | nil => simp [strLt] at hab
    | cons y ys =>
      cases c with
      | nil => simp [strLt] at hbc
      | cons z zs =>
        simp only [strLt] at hab hbc ⊢
        split_ifs at hab hbc ⊢ <;> first | rfl | omega | exact ih hab hbc

theorem strLt_connex {a b : List Char} (hab : strLt a b = false) (hba : strLt b a = false) :
    a = b := by
  induction a generalizing b with
  | nil =>
    cases b with
    | nil => rfl
    | cons y ys => simp [strLt] at hab
  | cons x xs ih =>
    cases b with
    | nil => simp [strLt] at hba
    | cons y ys =>
      simp only [strLt] at hab hba
      by_cases h1 : x.toNat < y.toNat
      · simp [h1] at hab
      · by_cases h2 : y.toNat < x.toNat
        · simp [h2] at hba
        · simp only [h1, h2, if_false] at hab hba
          have hxy : x = y := by
            have e : x.toNat = y.toNat := by omega
            rw [← Char.ofNat_toNat x, ← Char.ofNat_toNat y, e]
          rw [hxy, ih hab hba]

theorem strLt_asymm {a b : List Char} (hab : strLt a b = true) : strLt b a = false := by
  cases h : strLt b a with
  | false => rfl
  | true =>
    have := strLt_trans hab h
    rw [strLt_irrefl] at this
    cases this

theorem compare_eq_zero_iff (a b : List Char) : compare a b = 0 ↔ a = b := by
  constructor
  · intro h
    unfold compare at h
    by_cases h1 : strLt a b = true
    · simp [h1] at h
    · by_cases h2 : strLt b a = true
      · simp [h1, h2] at h
      · exact strLt_connex (by simpa using h1) (by simpa using h2)
  · rintro rfl
    simp [compare, strLt_irrefl]

/-! ## Sorting and removal of duplicates -/

theorem mem_sort_insert {x a : List Char} {l : List (List Char)} :
    x ∈ sort_insert a l ↔ x = a ∨ x ∈ l := by
  induction l with
  | nil => simp [sort_insert]
  | cons b l ih =>
    unfold sort_insert
    split_ifs
    · simp only [List.mem_cons, ih]; tauto
    · simp only [List.mem_cons]

theorem mem_sort {x : List Char} {l : List (List Char)} : x ∈ sort l ↔ x ∈ l := by
  induction l with
  | nil => simp [sort]
  | cons a l ih => simp only [sort, mem_sort_insert, ih, List.mem_cons]

theorem perm_sort_insert (a : List Char) (l : List (List Char)) :
    (sort_insert a l).Perm (a :: l) := by
  induction l with
  | nil => simp [sort_insert]
  | cons b l ih =>
    unfold sort_insert
    split_ifs
    · exact (ih.cons b).trans (List.Perm.swap a b l)
    · exact List.Perm.refl _

theorem perm_sort (l : List (List Char)) : (sort l).Perm l := by
  induction l with
  | nil => simp [sort]
  | cons a l ih => exact (perm_sort_insert a (sort l)).trans (ih.cons a)

theorem ascending_sort_insert {a : List Char} {l : List (List Char)} (h : Ascending l) :
    Ascending (sort_insert a l) := by
  induction l with
  | nil => simp [sort_insert, Ascending]
  | cons b l ih =>
    unfold Ascending at h ih ⊢
    rw [List.pairwise_cons] at h
    unfold sort_insert
    split_ifs with hb
    · rw [List.pairwise_cons]
      refine ⟨?_, ih h.2⟩
      intro x hx
      rcases mem_sort_insert.1 hx with rfl | hx
      · exact strLt_asymm hb
      · exact h.1 x hx
    · rw [List.pairwise_cons]
      refine ⟨?_, List.pairwise_cons.2 h⟩
      intro x hx
      rcases List.mem_cons.1 hx with rfl | hx
      · simpa using hb
      · cases hxa : strLt x a with
        | false => rfl
        | true =>
          have h1 := h.1 x hx
          have hba : strLt x b = true := by
            by_cases e : strLt a b = true
            · exact strLt_trans hxa e
            · have : a = b := strLt_connex (by simpa using e) (by simpa using hb)
              rw [← this]; exact hxa
          rw [h1] at hba
          cases hba

theorem ascending_sort (l : List (List Char)) : Ascending (sort l) := by
  induction l with
  | nil => simp [sort, Ascending]
  | cons a l ih => exact ascending_sort_insert ih

theorem mem_unique {x : List Char} {l : List (List Char)} : x ∈ unique l ↔ x ∈ l := by
  induction l with
  | nil => simp [unique]
  | cons a l ih =>
    cases l with
    | nil => simp [unique]
    | cons b l =>
      unfold unique
      split_ifs with hab
      · rw [ih, hab]; simp
      · rw [List.mem_cons, ih]; simp

theorem strictAscending_unique {l : List (List Char)} (h : Ascending l) :
    StrictAscending (unique l) := by
  induction l with
  | nil => simp [unique, StrictAscending]
  | cons a l ih =>
    cases l with
    | nil => simp [unique, StrictAscending]
    | cons b l =>
      unfold Ascending at h
      rw [List.pairwise_cons] at h
      have ih1 := ih h.2
      unfold unique
      split_ifs with hab
      · exact ih1
      · unfold StrictAscending at ih1 ⊢
        rw [List.pairwise_cons]
        refine ⟨?_, ih1⟩
        intro x hx
        rw [mem_unique] at hx
        have hxa : strLt x a = false := h.1 x hx
        have hba : strLt b a = false := h.1 b (List.mem_cons_self _ _)
        have hab1 : strLt a b = true := by
          cases e : strLt a b with
          | true => rfl
          | false => exact absurd (strLt_connex e hba) hab
        rcases List.mem_cons.1 hx with rfl | hx1
        · exact hab1
        · have hbx : strLt x b = false := (List.pairwise_cons.1 h.2).1 x hx1
          cases e : strLt b x with
          | true => exact strLt_trans hab1 e
          | false => rw [strLt_connex hbx e]; exact hab1

theorem strictAscending_ascending {l : List (List Char)} (h : StrictAscending l) :
    Ascending l :=
  List.Pairwise.imp (fun hab => strLt_asymm hab) h

/-- Two strictly ascending vectors with the same elements are equal. -/
theorem strictAscending_eq_of_mem_iff {l m : List (List Char)} (hl : StrictAscending l)
    (hm : StrictAscending m) (h : ∀ x, x ∈ l ↔ x ∈ m) : l = m := by
  induction l generalizing m with
  | nil =>
    cases m with
    | nil => rfl
    | cons b m => exact absurd ((h b).2 (List.mem_cons_self _ _)) (List.not_mem_nil _)
  | cons a l ih =>
    cases m with
    | nil => exact absurd ((h a).1 (List.mem_cons_self _ _)) (List.not_mem_nil _)
    | cons b m =>
      unfold StrictAscending at hl hm
      rw [List.pairwise_cons] at hl hm
      have hab : a = b := by
        have h1 := (h a).1 (List.mem_cons_self _ _)
        have h2 := (h b).2 (List.mem_cons_self _ _)
        rcases List.mem_cons.1 h1 with e | h1
        · exact e
        · rcases List.mem_cons.1 h2 with e | h2
          · exact e.symm
          · have := strLt_trans (hl.1 b h2) (hm.1 a h1)
            rw [strLt_irrefl] at this
            cases this
      subst hab
      congr 1
      apply ih hl.2 hm.2
      intro x
      constructor
      · intro hx
        rcases List.mem_cons.1 ((h x).1 (List.mem_cons_of_mem _ hx)) with e | hx1
        · have := hl.1 x hx
          rw [e, strLt_irrefl] at this
          cases this
        · exact hx1
      · intro hx
        rcases List.mem_cons.1 ((h x).2 (List.mem_cons_of_mem _ hx)) with e | hx1
        · have := hm.1 x hx
          rw [e, strLt_irrefl] at this
          cases this
        · exact hx1

/-! ## Binary search -/

theorem ascending_getD_le {v : List (List Char)} (h : Ascending v) {i j : Nat} (hij : i ≤ j)
    (hj : j < v.length) : strLt (v.getD j []) (v.getD i []) = false := by
  rcases Nat.eq_or_lt_of_le hij with rfl | hlt
  · exact strLt_irrefl _
  · have hi : i < v.length := by omega
    rw [List.getD_eq_getElem v [] hj, List.getD_eq_getElem v [] hi]
    exact (List.pairwise_iff_getElem.1 h) i j hi hj hlt

/-- The loop of `lower_bound` ends on the partition point of an ascending vector. -/
theorem lower_bound_loop_spec {v : List (List Char)} (hv : Ascending v) (val : List Char) :
    ∀ (fuel first len : Nat), len ≤ fuel → first + len ≤ v.length →
      (∀ i, i < first → strLt (v.getD i []) val = true) →
      (∀ i, first + len ≤ i → i < v.length → strLt (v.getD i []) val = false) →
      lower_bound_loop v val fuel first len ≤ v.length ∧
      (∀ i, i < lower_bound_loop v val fuel first len → strLt (v.getD i []) val = true) ∧
      (∀ i, lower_bound_loop v val fuel first len ≤ i → i < v.length →
        strLt (v.getD i []) val = false) := by
  intro fuel
  induction fuel with
  | zero =>
    intro first len hlen hbound hlo hhi
    have : len = 0 := by omega
    subst this
    simp only [lower_bound_loop]
    exact ⟨by omega, hlo, fun i hi hiv => hhi i (by omega) hiv⟩
  | succ fuel ih =>
    intro first len hlen hbound hlo hhi
    simp only [lower_bound_loop]
    by_cases hpos : 0 < len
    · rw [if_pos hpos]
      have hhalf : len / 2 < len := Nat.div_lt_self hpos (by decide)
      by_cases hmid : strLt (v.getD (first + len / 2) []) val = true
      · rw [if_pos hmid]
        apply ih
        · omega
        · omega
        · intro i hi
          cases hc : strLt (v.getD i []) val with
          | true => rfl
          | false =>
            have hle : i ≤ first + len / 2 := by omega
            have h1 := ascending_getD_le hv hle (by omega)
            -- v[i] ≤ v[mid] < val
            have : strLt (v.getD i []) val = true := by
              by_cases e : strLt (v.getD i []) (v.getD (first + len / 2) []) = true
              · exact strLt_trans e hmid
              · rw [strLt_connex (by simpa using e) h1]; exact hmid
            rw [hc] at this
            cases this
        · intro i hi hiv
          exact hhi i (by omega) hiv
      · rw [if_neg hmid]
        have hmid1 : strLt (v.getD (first + len / 2) []) val = false := by simpa using hmid
        apply ih
        · omega
        · omega
        · exact hlo
        · intro i hi hiv
          cases hc : strLt (v.getD i []) val with
          | false => rfl
          | true =>
            have h1 := ascending_getD_le hv hi hiv
            have : strLt (v.getD (first + len / 2) []) val = true := by
              by_cases e : strLt (v.getD (first + len / 2) []) (v.getD i []) = true
              · exact strLt_trans e hc
              · rw [strLt_connex (by simpa using e) h1]; exact hc
            rw [hmid1] at this
            cases this
    · rw [if_neg hpos]
      have : len = 0 := by omega
      subst this
      exact ⟨by omega, hlo, fun i hi hiv => hhi i (by omega) hiv⟩

/-- On an ascending vector `binary_search` is the membership test. -/
theorem binary_search_iff_mem {v : List (List Char)} (hv : Ascending v) (val : List Char) :
    binary_search v val = true ↔ val ∈ v := by
  obtain ⟨hle, hlo, hhi⟩ := lower_bound_loop_spec hv val v.length 0 v.length (Nat.le_refl _)
    (by omega) (fun i hi => absurd hi (Nat.not_lt_zero i)) (fun i hi hiv => by omega)
  unfold binary_search
  simp only [lower_bound, Bool.and_eq_true, decide_eq_true_eq, Bool.not_eq_true',
    ne_eq]
  constructor
  · rintro ⟨hne, hnlt⟩
    have hlt : lower_bound_loop v val v.length 0 v.length < v.length := by omega
    have h2 := hhi _ (Nat.le_refl _) hlt
    have e := strLt_connex hnlt h2
    rw [e, List.getD_eq_getElem v [] hlt]
    exact List.getElem_mem _
  · intro hmem
    obtain ⟨i, hi, rfl⟩ := List.getElem_of_mem hmem
    have hge : lower_bound_loop v v[i] v.length 0 v.length ≤ i := by
      by_contra hcon
      have := hlo i (by omega)
      rw [List.getD_eq_getElem v [] hi, strLt_irrefl] at this
      cases this
    refine ⟨by omega, ?_⟩
    have := ascending_getD_le hv hge hi
    rwa [List.getD_eq_getElem v [] hi] at this

theorem ascending_unique_sort (l : List (List Char)) : Ascending (unique (sort l)) :=
  strictAscending_ascending (strictAscending_unique (ascending_sort l))

theorem mem_unique_sort {x : List Char} {l : List (List Char)} :
    x ∈ unique (sort l) ↔ x ∈ l := by
  rw [mem_unique, mem_sort]

/-- The search in a vector that was sorted and freed of duplicates is the
membership test on the original vector. -/
theorem binary_search_unique_sort (l : List (List Char)) (val : List Char) :
    binary_search (unique (sort l)) val = true ↔ val ∈ l := by
  rw [binary_search_iff_mem (ascending_unique_sort l), mem_unique_sort]

/-- Vectors with the same elements give the same key vector. -/
theorem unique_sort_congr {l m : List (List Char)} (h : ∀ x, x ∈ l ↔ x ∈ m) :
    unique (sort l) = unique (sort m) :=
  strictAscending_eq_of_mem_iff (strictAscending_unique (ascending_sort l))
    (strictAscending_unique (ascending_sort m))
    (fun x => by rw [mem_unique_sort, mem_unique_sort]; exact h x)

/-! ## Trimming of the quotation marks -/

theorem trim_quotes_nil : trim_quotes [] = none := by
  simp [trim_quotes, substr]

theorem trim_quotes_of_ne_nil {s : List Char} (h : s ≠ []) :
    trim_quotes s = some (trim_value s) := by
  cases s with
  | nil => exact absurd rfl h
  | cons c cs => simp [trim_quotes, substr, trim_value]

theorem trim_quotes_eq_none_iff {s : List Char} : trim_quotes s = none ↔ s = [] := by
  constructor
  · intro h
    by_contra hne
    rw [trim_quotes_of_ne_nil hne] at h
    cases h
  · rintro rfl
    exact trim_quotes_nil

theorem trim_quotes_eq_some {s k : List Char} (h : trim_quotes s = some k) :
    s ≠ [] ∧ k = trim_value s := by
  have hne : s ≠ [] := fun e => by rw [e, trim_quotes_nil] at h; cases h
  rw [trim_quotes_of_ne_nil hne] at h
  exact ⟨hne, (Option.some.inj h).symm⟩

/-- Below `2 ^ 64` characters the trimmed value is the string without its first
and its last character. -/
theorem trim_value_eq_strip {s : List Char} (h : s.length < 2 ^ 64) :
    trim_value s = strip s := by
  unfold trim_value strip
  rw [List.dropLast_eq_take]
  rcases Nat.lt_or_ge s.length 2 with h2 | h2
  · have hd : (s.drop 1).length = 0 := by rw [List.length_drop]; omega
    rw [List.length_eq_zero.1 hd]
    simp
  · have e : size_sub s.length 2 = s.length - 2 := by
      unfold size_sub
      norm_num at h ⊢
      omega
    rw [e, List.length_drop]
    congr 1

/-! ## Reading lines -/

theorem take_line_length (d : Char) (b : List Char) :
    (take_line d b).2.1.length ≤ b.length - 1 := by
  induction b with
  | nil => simp [take_line]
  | cons c cs ih =>
    unfold take_line
    split_ifs
    · simp
    · simp only [List.length_cons, Nat.add_sub_cancel]
      omega

theorem take_line_fst_length (d : Char) (b : List Char) :
    (take_line d b).1.length ≤ b.length := by
  induction b with
  | nil => simp [take_line]
  | cons c cs ih =>
    unfold take_line
    split_ifs
    · simp
    · simp only [List.length_cons]
      omega

theorem take_line_not_mem (d : Char) (b : List Char) : d ∉ (take_line d b).1 := by
  induction b with
  | nil => simp [take_line]
  | cons c cs ih =>
    unfold take_line
    split_ifs with h
    · simp
    · simp only [List.mem_cons, not_or]
      exact ⟨fun e => h e.symm, ih⟩

theorem take_line_append {d : Char} {l : List Char} (h : d ∉ l) (rest : List Char) :
    take_line d (l ++ d :: rest) = (l, rest, false) := by
  induction l with
  | nil => simp [take_line]
  | cons c cs ih =>
    rw [List.mem_cons, not_or] at h
    have hc : ¬ c = d := fun e => h.1 e.symm
    have e := ih h.2
    rw [List.cons_append, take_line, if_neg hc, e]

theorem take_line_of_not_mem {d : Char} {l : List Char} (h : d ∉ l) :
    take_line d l = (l, [], true) := by
  induction l with
  | nil => simp [take_line]
  | cons c cs ih =>
    rw [List.mem_cons, not_or] at h
    have hc : ¬ c = d := fun e => h.1 e.symm
    simp only [take_line, if_neg hc, ih h.2]

/-- The end of the data is hit exactly when the delimiter does not occur. -/
theorem take_line_eof_iff (d : Char) (l : List Char) :
    (take_line d l).2.2 = true ↔ d ∉ l := by
  induction l with
  | nil => simp [take_line]
  | cons c cs ih =>
    unfold take_line
    split_ifs with h
    · simp [h]
    · simp only [ih, List.mem_cons, not_or]
      exact ⟨fun h1 => ⟨fun e => h e.symm, h1⟩, fun h1 => h1.2⟩

theorem getline_of_good {s : IStream} (h : s.good = true) (str : List Char) (d : Char) :
    getline s str d =
      (⟨(take_line d s.buf).2.1, (take_line d s.buf).2.2, s.buf.isEmpty⟩,
        (take_line d s.buf).1) := by
  unfold getline
  rw [if_pos h]

theorem getline_of_not_good {s : IStream} (h : s.good = false) (str : List Char) (d : Char) :
    getline s str d = (⟨s.buf, s.eofbit, true⟩, str) := by
  unfold getline
  rw [if_neg (by simp [h])]

/-- A call of `getline` that succeeds was made on a good stream with data left,
and consumes at least one character. -/
theorem getline_success {s : IStream} {str : List Char} {d : Char}
    (h : (getline s str d).1.failbit = false) :
    s.good = true ∧ s.buf ≠ [] ∧ (getline s str d).1.buf.length < s.buf.length := by
  cases hg : s.good with
  | false =>
    rw [getline_of_not_good hg] at h
    cases h
  | true =>
    rw [getline_of_good hg] at h ⊢
    simp only [List.isEmpty_eq_false] at h
    have hne : s.buf ≠ [] := by
      intro e
      rw [e] at h
      simp at h
    refine ⟨rfl, hne, ?_⟩
    have := take_line_length d s.buf
    have hpos : 0 < s.buf.length := List.length_pos.2 hne
    simp only
    omega

/-- More iterations than characters left do not change what is read. -/
theorem read_lines_stable : ∀ (n m : Nat) (s : IStream), s.buf.length < n →
    s.buf.length < m → read_lines n s = read_lines m s := by
  intro n
  induction n with
  | zero => intro m s h; omega
  | succ n ih =>
    intro m s hn hm
    cases m with
    | zero => omega
    | succ m =>
      unfold read_lines
      cases hf : (getline s [] '\n').1.failbit with
      | true => simp
      | false =>
        obtain ⟨_, _, hlt⟩ := getline_success hf
        simp only [Bool.false_eq_true, if_false]
        rw [ih m _ (by omega) (by omega)]

/-- The reading loop applies its body to the lines read, in order, and stops
at the first exception. -/
theorem while_getline_eq_foldlM {σ : Type} (body : σ → List Char → Option σ) :
    ∀ (n : Nat) (s : IStream) (st : σ),
      while_getline body n s st = (read_lines n s).foldlM body st := by
  intro n
  induction n with
  | zero => intro s st; rfl
  | succ n ih =>
    intro s st
    unfold while_getline read_lines
    cases hf : (getline s [] '\n').1.failbit with
    | true => simp
    | false =>
      simp only [Bool.false_eq_true, if_false, List.foldlM_cons]
      cases hb : body st (getline s [] '\n').2 with
      | none => rfl
      | some st1 => exact ih _ _

/-- More iterations than characters left do not change what a reading loop
does: the bound on the iterations is never the reason why the loop ends. -/
theorem while_getline_stable {σ : Type} (body : σ → List Char → Option σ) (n m : Nat)
    (s : IStream) (st : σ) (hn : s.buf.length < n) (hm : s.buf.length < m) :
    while_getline body n s st = while_getline body m s st := by
  rw [while_getline_eq_foldlM, while_getline_eq_foldlM, read_lines_stable n m s hn hm]

theorem lines_none : lines none = [] := by
  simp [lines, ifstream, IStream.fuel, read_lines, getline, IStream.good]

theorem lines_some_nil : lines (some []) = [] := by
  simp [lines, ifstream, IStream.fuel, read_lines, getline, IStream.good, take_line]

/-- The first call of `getline` on a file delivers its first line (the empty
string when there is none, as the variable starts empty). -/
theorem getline_ifstream_snd (f : Option (List Char)) :
    (getline (ifstream f) [] '\n').2 = first_line f := by
  cases f with
  | none => simp [first_line, lines_none, getline, ifstream, IStream.good]
  | some c =>
    cases c with
    | nil => simp [first_line, lines_some_nil, getline, ifstream, IStream.good, take_line]
    | cons a as =>
      simp [first_line, lines, ifstream, IStream.fuel, read_lines, getline, IStream.good]

/-- After the first call of `getline` on a file the reading loop sees the
other lines. -/
theorem read_lines_after_header (f : Option (List Char)) :
    read_lines (getline (ifstream f) [] '\n').1.fuel (getline (ifstream f) [] '\n').1 =
      data_lines f := by
  cases f with
  | none =>
    simp [data_lines, lines_none, getline, ifstream, IStream.good, IStream.fuel, read_lines]
  | some c =>
    cases c with
    | nil =>
      simp [data_lines, lines_some_nil, getline, ifstream, IStream.good, IStream.fuel,
        read_lines, take_line]
    | cons a as =>
      have hf : (getline (ifstream (some (a :: as))) [] '\n').1.failbit = false := by
        simp [getline, ifstream, IStream.good]
      obtain ⟨_, _, hlt⟩ := getline_success hf
      have hl : lines (some (a :: as)) =
          (getline (ifstream (some (a :: as))) [] '\n').2 ::
            read_lines (a :: as).length (getline (ifstream (some (a :: as))) [] '\n').1 := by
        show read_lines ((a :: as).length + 1) (ifstream (some (a :: as))) = _
        rw [read_lines, hf]
        simp
      rw [data_lines, hl, List.tail_cons]
      apply read_lines_stable
      · simp [IStream.fuel]
      · simpa [ifstream] using hlt

/-- The loop after the header check runs its body over the data lines. -/
theorem while_getline_data {σ : Type} (body : σ → List Char → Option σ)
    (f : Option (List Char)) (st : σ) :
    while_getline body (getline (ifstream f) [] '\n').1.fuel (getline (ifstream f) [] '\n').1 st
      = (data_lines f).foldlM body st := by
  rw [while_getline_eq_foldlM, read_lines_after_header]

/-! ## Lines of a text -/

theorem not_mem_of_mem_read_lines : ∀ (n : Nat) (s : IStream) (l : List Char),
    l ∈ read_lines n s → '\n' ∉ l := by
  intro n
  induction n with
  | zero => intro s l h; simp [read_lines] at h
  | succ n ih =>
    intro s l h
    unfold read_lines at h
    cases hf : (getline s [] '\n').1.failbit with
    | true => simp [hf] at h
    | false =>
      simp only [hf, Bool.false_eq_true, if_false, List.mem_cons] at h
      rcases h with rfl | h
      · obtain ⟨hg, _, _⟩ := getline_success hf
        rw [getline_of_good hg]
        exact take_line_not_mem _ _
      · exact ih _ _ h

/-- A line of a file holds no newline character. -/
theorem not_mem_of_mem_lines {f : Option (List Char)} {l : List Char} (h : l ∈ lines f) :
    '\n' ∉ l :=
  not_mem_of_mem_read_lines _ _ _ h

theorem not_mem_of_mem_data_lines {f : Option (List Char)} {l : List Char}
    (h : l ∈ data_lines f) : '\n' ∉ l :=
  not_mem_of_mem_lines (List.mem_of_mem_tail h)

theorem length_le_length_unlines (ls : List (List Char)) :
    ls.length ≤ (unlines ls).length := by
  induction ls with
  | nil => simp
  | cons l ls ih =>
    simp only [unlines, List.length_cons, List.length_append]
    omega

theorem read_lines_unlines : ∀ (ls : List (List Char)), (∀ l ∈ ls, '\n' ∉ l) →
    ∀ n, ls.length < n → read_lines n ⟨unlines ls, false, false⟩ = ls := by
  intro ls
  induction ls with
  | nil =>
    intro _ n hn
    cases n with
    | zero => omega
    | succ n => simp [read_lines, unlines, getline, IStream.good, take_line]
  | cons l ls ih =>
    intro h n hn
    cases n with
    | zero => omega
    | succ n =>
      have hl : '\n' ∉ l := h l (List.mem_cons_self _ _)
      have hg : getline ⟨unlines (l :: ls), false, false⟩ [] '\n' =
          (⟨unlines ls, false, false⟩, l) := by
        rw [getline_of_good (by rfl)]
        simp only [unlines, take_line_append hl]
        simp
      rw [read_lines, hg]
      simp only [Bool.false_eq_true, if_false]
      rw [ih (fun x hx => h x (List.mem_cons_of_mem _ hx)) n
        (by simp only [List.length_cons] at hn; omega)]

/-- Reading back a text written line by line gives the lines written. -/
theorem lines_unlines {ls : List (List Char)} (h : ∀ l ∈ ls, '\n' ∉ l) :
    lines (some (unlines ls)) = ls := by
  unfold lines
  apply read_lines_unlines ls h
  have := length_le_length_unlines ls
  simp only [ifstream, IStream.fuel]
  omega

theorem unlines_append (a b : List (List Char)) : unlines (a ++ b) = unlines a ++ unlines b := by
  induction a with
  | nil => rfl
  | cons l a ih => simp [unlines, ih]

/-! ## The loops -/

theorem first_field_nil : first_field [] = [] := rfl

theorem first_field_cons (c : Char) (cs : List Char) :
    first_field (c :: cs) = if c = ',' then [] else c :: first_field cs := by
  unfold first_field
  rw [take_line]
  split_ifs <;> rfl

theorem first_field_eq_nil_iff (l : List Char) :
    first_field l = [] ↔ l = [] ∨ l.head? = some ',' := by
  cases l with
  | nil => simp [first_field_nil]
  | cons c cs =>
    rw [first_field_cons]
    by_cases h : c = ','
    · simp [h]
    · simp [h]

theorem copy_safe_iff (l : List Char) : copy_safe l = true ↔ (l = [] ∨ first_field l ≠ []) := by
  cases l with
  | nil => simp [copy_safe]
  | cons c cs =>
    rw [first_field_cons]
    by_cases h : c = ','
    · simp [h, copy_safe]
    · simp [h, copy_safe]

theorem getline_stringstream (l str : List Char) :
    getline (stringstream l) str ',' =
      (⟨(take_line ',' l).2.1, (take_line ',' l).2.2, l.isEmpty⟩, first_field l) := by
  rw [getline_of_good (by rfl)]
  rfl

/-- The second `getline` of the invoice loop leaves in `element` the field
from which the invoice code is taken. -/
theorem getline_second (l : List Char) :
    (getline (getline (stringstream l) [] ',').1 (getline (stringstream l) [] ',').2 ',').2 =
      harvest_field l := by
  rw [getline_stringstream]
  unfold harvest_field
  by_cases hc : ',' ∈ l
  · rw [if_pos hc]
    have he : (take_line ',' l).2.2 = false := by
      cases h : (take_line ',' l).2.2 with
      | false => rfl
      | true => exact absurd hc ((take_line_eof_iff ',' l).1 h)
    have hne : l ≠ [] := fun e => by rw [e] at hc; simp at hc
    rw [getline_of_good (by simp [IStream.good, he, hne])]
    rfl
  · rw [if_neg hc]
    have he : (take_line ',' l).2.2 = true := (take_line_eof_iff ',' l).2 hc
    rw [getline_of_not_good (by simp [IStream.good, he])]

theorem copy_body_eq {codes : List (List Char)} (hc : Ascending codes) (out l : List Char) :
    copy_body codes out l =
      if copy_safe l then some (if keeps codes l then out ++ l ++ ['\n'] else out)
      else none := by
  unfold copy_body
  simp only [getline_stringstream]
  cases l with
  | nil => simp [copy_safe, keeps, first_field_nil]
  | cons c cs =>
    by_cases h : c = ','
    · subst h
      simp [copy_safe, first_field_cons, trim_quotes_nil]
    · have hne : first_field (c :: cs) ≠ [] := by rw [first_field_cons]; simp [h]
      have hs : copy_safe (c :: cs) = true := by simp [copy_safe, h]
      rw [trim_quotes_of_ne_nil hne, hs]
      simp only [List.isEmpty_cons, Bool.false_eq_true, if_false, if_true]
      by_cases hm : trim_value (first_field (c :: cs)) ∈ codes
      · rw [if_pos ((binary_search_iff_mem hc _).2 hm)]
        simp [keeps, hne, hm]
      · rw [if_neg (fun hb => hm ((binary_search_iff_mem hc _).1 hb))]
        simp [keeps, hm]

/-- The copying loop on a list of lines: it throws when some line begins with
a comma, and otherwise appends the lines it keeps. -/
theorem foldlM_copy_body {codes : List (List Char)} (hc : Ascending codes) :
    ∀ (ls : List (List Char)) (out : List Char),
      ls.foldlM (copy_body codes) out =
        if ls.all copy_safe then some (out ++ unlines (ls.filter (keeps codes))) else none := by
  intro ls
  induction ls with
  | nil => intro out; simp [unlines]
  | cons l ls ih =>
    intro out
    rw [List.foldlM_cons, copy_body_eq hc]
    cases hs : copy_safe l with
    | false => simp [hs]
    | true =>
      simp only [if_true, List.all_cons, hs, Bool.true_and]
      show (ls.foldlM (copy_body codes) _) = _
      rw [ih]
      cases hk : keeps codes l with
      | false => simp [List.filter_cons, hk]
      | true => simp [List.filter_cons, hk, unlines]

theorem invoice_body_eq {codes : List (List Char)} (hc : Ascending codes)
    (st : List Char × List (List Char)) (l : List Char) :
    invoice_body codes st l =
      if invoice_safe codes l then
        some (if keeps codes l then
          (st.1 ++ l ++ ['\n'], st.2 ++ [trim_value (harvest_field l)]) else st)
      else none := by
  unfold invoice_body
  simp only [getline_second]
  simp only [getline_stringstream]
  cases l with
  | nil => simp [invoice_safe, copy_safe, keeps, first_field_nil]
  | cons c cs =>
    by_cases h : c = ','
    · subst h
      simp [invoice_safe, copy_safe, first_field_cons, trim_quotes_nil]
    · have hne : first_field (c :: cs) ≠ [] := by rw [first_field_cons]; simp [h]
      have hs : copy_safe (c :: cs) = true := by simp [copy_safe, h]
      rw [trim_quotes_of_ne_nil hne]
      simp only [List.isEmpty_cons, Bool.false_eq_true, if_false]
      by_cases hm : trim_value (first_field (c :: cs)) ∈ codes
      · rw [if_pos ((binary_search_iff_mem hc _).2 hm)]
        have hk : keeps codes (c :: cs) = true := by simp [keeps, hne, hm]
        by_cases hh : harvest_field (c :: cs) = []
        · simp [invoice_safe, hk, hh, trim_quotes_nil]
        · rw [trim_quotes_of_ne_nil hh]
          simp [invoice_safe, hk, hh, hs]
      · rw [if_neg (fun hb => hm ((binary_search_iff_mem hc _).1 hb))]
        have hk : keeps codes (c :: cs) = false := by simp [keeps, hm]
        simp [invoice_safe, hk, hs]

/-- The loop of `extract_invoices_and_items` on a list of lines: besides
copying the lines it keeps, it collects their invoice codes. -/
theorem foldlM_invoice_body {codes : List (List Char)} (hc : Ascending codes) :
    ∀ (ls : List (List Char)) (st : List Char × List (List Char)),
      ls.foldlM (invoice_body codes) st =
        if ls.all (invoice_safe codes) then
          some (st.1 ++ unlines (ls.filter (keeps codes)),
            st.2 ++ (ls.filter (keeps codes)).map (fun l => trim_value (harvest_field l)))
        else none := by
  intro ls
  induction ls with
  | nil => intro st; simp [unlines]
  | cons l ls ih =>
    intro st
    rw [List.foldlM_cons, invoice_body_eq hc]
    cases hs : invoice_safe codes l with
    | false => simp [hs]
    | true =>
      simp only [if_true, List.all_cons, hs, Bool.true_and]
      show (ls.foldlM (invoice_body codes) _) = _
      rw [ih]
      cases hk : keeps codes l with
      | false => simp [List.filter_cons, hk]
      | true => simp [List.filter_cons, hk, unlines]

theorem set_customer_codes_body_eq (codes : List (List Char)) (l : List Char) :
    set_customer_codes_body codes l =
      if l ≠ [] then some (codes ++ [trim_value l]) else none := by
  unfold set_customer_codes_body
  by_cases h : l = []
  · subst h; simp [trim_quotes_nil]
  · rw [trim_quotes_of_ne_nil h]; simp [h]

/-- The reading loop of `set_customer_codes` on a list of lines: it throws on
an empty line, and otherwise appends the trimmed lines. -/
theorem foldlM_set_customer_codes_body :
    ∀ (ls : List (List Char)) (codes : List (List Char)),
      ls.foldlM set_customer_codes_body codes =
        if ls.all (fun l => decide (l ≠ [])) then some (codes ++ ls.map trim_value) else none := by
  intro ls
  induction ls with
  | nil => intro codes; simp
  | cons l ls ih =>
    intro codes
    rw [List.foldlM_cons, set_customer_codes_body_eq]
    by_cases h : l = []
    · subst h; simp
    · simp only [ne_eq, h, not_false_eq_true, if_true, List.all_cons, decide_True, Bool.true_and]
      show (ls.foldlM set_customer_codes_body _) = _
      rw [ih]
      simp

/-! ## The stages -/

theorem compare_ne_zero_iff (a b : List Char) : compare a b ≠ 0 ↔ a ≠ b :=
  not_congr (compare_eq_zero_iff a b)

theorem keeps_unique_sort (l : List (List Char)) (line : List Char) :
    keeps (unique (sort l)) line = keeps l line := by
  unfold keeps
  congr 1
  exact decide_eq_decide.2 mem_unique_sort

theorem filter_keeps_unique_sort (l : List (List Char)) (ls : List (List Char)) :
    ls.filter (keeps (unique (sort l))) = ls.filter (keeps l) := by
  congr 1
  funext line
  exact keeps_unique_sort l line

theorem invoice_safe_unique_sort (l : List (List Char)) (line : List Char) :
    invoice_safe (unique (sort l)) line = invoice_safe l line := by
  unfold invoice_safe
  rw [keeps_unique_sort]

/-- What `set_customer_codes` does, by the first line and the data lines of the
sample file. -/
theorem set_customer_codes_eq (seed : Option (List Char)) (codes : List (List Char)) :
    set_customer_codes seed codes =
      if first_line seed = SAMPLE_HEADER then
        if (data_lines seed).all (fun l => decide (l ≠ [])) then
          some (true, unique (sort (codes ++ (data_lines seed).map trim_value)))
        else none
      else some (false, codes) := by
  unfold set_customer_codes
  simp only [compare_ne_zero_iff, while_getline_data, getline_ifstream_snd,
    foldlM_set_customer_codes_body]
  by_cases h : first_line seed = SAMPLE_HEADER
  · simp only [h, ne_eq, not_true_eq_false, if_false, if_true]
    split_ifs <;> rfl
  · simp [h]

/-- What `extract_customers` does, by the first line and the data lines of the
customer master. -/
theorem extract_customers_eq {codes : List (List Char)} (hc : Ascending codes) (fs : Files) :
    extract_customers codes fs =
      if first_line fs.customer = CUSTOMER_HEADER then
        if (data_lines fs.customer).all copy_safe then
          some (true,
            { fs with extracted_customer := some (extracted_text CUSTOMER_HEADER codes fs.customer) })
        else none
      else some (false, { fs with extracted_customer := some [] }) := by
  unfold extract_customers
  simp only [compare_ne_zero_iff, while_getline_data, getline_ifstream_snd,
    foldlM_copy_body hc]
  by_cases h : first_line fs.customer = CUSTOMER_HEADER
  · simp only [h, ne_eq, not_true_eq_false, if_false, if_true]
    split_ifs
    · simp [unlines, extracted_text]
    · rfl
  · simp [h]

/-- What `extract_invoice_items` does, by the first line and the data lines of
the invoice item master. -/
theorem extract_invoice_items_eq (invoice_codes : List (List Char)) (fs : Files) :
    extract_invoice_items invoice_codes fs =
      if first_line fs.invoice_item = INVOICE_ITEM_HEADER then
        if (data_lines fs.invoice_item).all copy_safe then
          some (true, unique (sort invoice_codes),
            { fs with
              extracted_invoice_item :=
                some (extracted_text INVOICE_ITEM_HEADER invoice_codes fs.invoice_item) })
        else none
      else some (false, unique (sort invoice_codes),
        { fs with extracted_invoice_item := some [] }) := by
  unfold extract_invoice_items
  simp only [compare_ne_zero_iff, while_getline_data, getline_ifstream_snd,
    foldlM_copy_body (ascending_unique_sort invoice_codes), filter_keeps_unique_sort]
  by_cases h : first_line fs.invoice_item = INVOICE_ITEM_HEADER
  · simp only [h, ne_eq, not_true_eq_false, if_false, if_true]
    split_ifs
    · simp [unlines, extracted_text]
    · rfl
  · simp [h]

/-- What `extract_invoices_and_items` does, by the first lines and the data
lines of the invoice master and of the invoice item master. -/
theorem extract_invoices_and_items_eq {codes : List (List Char)} (hc : Ascending codes)
    (fs : Files) :
    extract_invoices_and_items codes fs =
      if first_line fs.invoice = INVOICE_HEADER then
        if (data_lines fs.invoice).all (invoice_safe codes) then
          if first_line fs.invoice_item = INVOICE_ITEM_HEADER then
            if (data_lines fs.invoice_item).all copy_safe then
              some (true,
                { fs with
                  extracted_invoice := some (extracted_text INVOICE_HEADER codes fs.invoice)
                  extracted_invoice_item := some (extracted_text INVOICE_ITEM_HEADER
                    (harvest codes (data_lines fs.invoice)) fs.invoice_item) })
            else none
          else
            some (false,
              { fs with
                extracted_invoice := some (extracted_text INVOICE_HEADER codes fs.invoice)
                extracted_invoice_item := some [] })
        else none
      else some (false, { fs with extracted_invoice := some [] }) := by
  unfold extract_invoices_and_items
  simp only [compare_ne_zero_iff, while_getline_data, getline_ifstream_snd,
    foldlM_invoice_body hc, extract_invoice_items_eq]
  by_cases h : first_line fs.invoice = INVOICE_HEADER
  · simp only [h, ne_eq, not_true_eq_false, if_false, if_true]
    by_cases h2 : (data_lines fs.invoice).all (invoice_safe codes) = true
    · simp only [h2, if_true, List.nil_append]
      by_cases h3 : first_line fs.invoice_item = INVOICE_ITEM_HEADER
      · simp only [h3, if_true]
        by_cases h4 : (data_lines fs.invoice_item).all copy_safe = true
        · simp [h4, unlines, harvest, extracted_text]
        · simp [h4]
      · simp [h3, unlines, extracted_text]
    · simp [h2]
  · simp [h]

/-! ## The pipeline -/

theorem extracted_text_unique_sort (header : List Char) (l : List (List Char))
    (f : Option (List Char)) :
    extracted_text header (unique (sort l)) f = extracted_text header l f := by
  unfold extracted_text
  rw [filter_keeps_unique_sort]

theorem harvest_unique_sort (l ls : List (List Char)) :
    harvest (unique (sort l)) ls = harvest l ls := by
  unfold harvest
  rw [filter_keeps_unique_sort]

theorem all_invoice_safe_unique_sort (l ls : List (List Char)) :
    ls.all (invoice_safe (unique (sort l))) = ls.all (invoice_safe l) := by
  congr 1
  funext line
  exact invoice_safe_unique_sort l line

/-- What `extract_customer_data` does, by the first lines and the data lines of
the four input files. -/
theorem extract_customer_data_eq (seed : Option (List Char)) (fs : Files) :
    extract_customer_data seed fs =
      if first_line seed = SAMPLE_HEADER then
        if (data_lines seed).all (fun l => decide (l ≠ [])) then
          if first_line fs.customer = CUSTOMER_HEADER then
            if (data_lines fs.customer).all copy_safe then
              if first_line fs.invoice = INVOICE_HEADER then
                if (data_lines fs.invoice).all (invoice_safe (seed_codes seed)) then
                  if first_line fs.invoice_item = INVOICE_ITEM_HEADER then
                    if (data_lines fs.invoice_item).all copy_safe then
                      some (true, extracted_files seed fs)
                    else none
                  else some (false, { extracted_files seed fs with
                    extracted_invoice_item := some [] })
                else none
              else some (false, { fs with
                extracted_customer :=
                  some (extracted_text CUSTOMER_HEADER (seed_codes seed) fs.customer)
                extracted_invoice := some [] })
            else none
          else some (false, { fs with extracted_customer := some [] })
        else none
      else some (false, fs) := by
  unfold extract_customer_data seed_codes
  rw [set_customer_codes_eq]
  by_cases h1 : first_line seed = SAMPLE_HEADER
  swap
  · simp only [h1, if_false]
  simp only [h1, if_true, List.nil_append]
  cases h2 : (data_lines seed).all (fun l => decide (l ≠ []))
  · simp only [Bool.false_eq_true, if_false]
  simp only [if_true]
  rw [extract_customers_eq (ascending_unique_sort _)]
  by_cases h3 : first_line fs.customer = CUSTOMER_HEADER
  swap
  · simp only [h3, if_false]
  simp only [h3, if_true]
  cases h4 : (data_lines fs.customer).all copy_safe
  · simp only [Bool.false_eq_true, if_false]
  simp only [if_true]
  rw [extract_invoices_and_items_eq (ascending_unique_sort _)]
  simp only [extracted_text_unique_sort, harvest_unique_sort, all_invoice_safe_unique_sort]
  by_cases h5 : first_line fs.invoice = INVOICE_HEADER
  swap
  · simp only [h5, if_false]
  simp only [h5, if_true]
  cases h6 : (data_lines fs.invoice).all (invoice_safe ((data_lines seed).map trim_value))
  · simp only [Bool.false_eq_true, if_false]
  simp only [if_true]
  by_cases h7 : first_line fs.invoice_item = INVOICE_ITEM_HEADER
  swap
  · simp only [h7, if_false]
    rfl
  simp only [h7, if_true]
  cases h8 : (data_lines fs.invoice_item).all copy_safe
  · simp only [Bool.false_eq_true, if_false]
  simp only [if_true]
  rfl

/-! ## Well-formed input is read without an exception -/

theorem all_ne_nil_of_wellFormedSeed {seed : Option (List Char)} (h : WellFormedSeed seed) :
    (data_lines seed).all (fun l => decide (l ≠ [])) = true := by
  rw [List.all_eq_true]
  intro l hl
  exact decide_eq_true (h l hl)

theorem all_copy_safe_of_wellFormedMaster {f : Option (List Char)} (h : WellFormedMaster f) :
    (data_lines f).all copy_safe = true := by
  rw [List.all_eq_true]
  intro l hl
  exact (copy_safe_iff l).2 (Or.inr (h l hl))

theorem all_copy_safe_of_noLeadingComma {f : Option (List Char)} (h : NoLeadingComma f) :
    (data_lines f).all copy_safe = true := by
  rw [List.all_eq_true]
  intro l hl
  exact decide_eq_true (h l hl)

theorem mem_of_second_field_ne_nil {l : List Char} (h : second_field l ≠ []) : ',' ∈ l := by
  by_contra hc
  apply h
  unfold second_field
  rw [take_line_of_not_mem hc]
  rfl

theorem harvest_field_of_second {l : List Char} (h : second_field l ≠ []) :
    harvest_field l = second_field l := by
  unfold harvest_field
  rw [if_pos (mem_of_second_field_ne_nil h)]

theorem all_invoice_safe_of_wellFormedInvoice {f : Option (List Char)} (h : WellFormedInvoice f)
    (codes : List (List Char)) : (data_lines f).all (invoice_safe codes) = true := by
  rw [List.all_eq_true]
  intro l hl
  obtain ⟨h1, h2⟩ := h l hl
  unfold invoice_safe
  rw [(copy_safe_iff l).2 (Or.inr h1), harvest_field_of_second h2]
  simp [h2]

/-! ## The extracted files read back -/

theorem data_lines_none : data_lines none = [] := by
  rw [data_lines, lines_none]; rfl

theorem first_line_of_lines_nil {f : Option (List Char)} (h : lines f = []) :
    first_line f = [] := by
  rw [first_line, h]; rfl

theorem data_lines_of_lines_nil {f : Option (List Char)} (h : lines f = []) :
    data_lines f = [] := by
  rw [data_lines, h]; rfl

theorem data_lines_some_nil : data_lines (some []) = [] :=
  data_lines_of_lines_nil lines_some_nil

/-- The data lines of a text produced by a copying loop are the lines kept. -/
theorem data_lines_extracted_text {header : List Char} (hh : '\n' ∉ header)
    (codes : List (List Char)) (f : Option (List Char)) :
    data_lines (some (extracted_text header codes f)) = (data_lines f).filter (keeps codes) := by
  unfold extracted_text
  rw [data_lines, lines_unlines, List.tail_cons]
  intro l hl
  rcases List.mem_cons.1 hl with rfl | hl
  · exact hh
  · exact not_mem_of_mem_data_lines (List.mem_of_mem_filter hl)

theorem keeps_iff (codes : List (List Char)) (l : List Char) :
    keeps codes l = true ↔ first_field l ≠ [] ∧ trim_value (first_field l) ∈ codes := by
  simp [keeps]

theorem first_field_length_le (l : List Char) : (first_field l).length ≤ l.length :=
  take_line_fst_length ',' l

theorem seed_codes_eq_map_strip {seed : Option (List Char)} (h : Sized seed) :
    seed_codes seed = (data_lines seed).map strip := by
  unfold seed_codes
  apply List.map_congr_left
  intro l hl
  exact trim_value_eq_strip (h l hl)

/-- On well-formed lines below `2 ^ 64` characters, a line is kept exactly when
its first field without its first and last character is a trimmed seed line. -/
theorem filter_keeps_eq_filter_strip {seed f : Option (List Char)} (zs : Sized seed)
    (hf : WellFormedMaster f) (zf : Sized f) :
    (data_lines f).filter (keeps (seed_codes seed)) =
      (data_lines f).filter
        (fun l => decide (strip (first_field l) ∈ (data_lines seed).map strip)) := by
  apply List.filter_congr
  intro l hl
  rw [seed_codes_eq_map_strip zs]
  unfold keeps
  have hlen : (first_field l).length < 2 ^ 64 :=
    Nat.lt_of_le_of_lt (first_field_length_le l) (zf l hl)
  rw [trim_value_eq_strip hlen]
  simp [hf l hl]

theorem wellFormedMaster_of_wellFormedInvoice {f : Option (List Char)} (h : WellFormedInvoice f) :
    WellFormedMaster f := fun l hl => (h l hl).1

theorem all_invoice_safe_of_invoiceSafe {codes : List (List Char)} {f : Option (List Char)}
    (h : InvoiceSafe codes f) : (data_lines f).all (invoice_safe codes) = true := by
  rw [List.all_eq_true]
  intro l hl
  obtain ⟨h1, h2⟩ := h l hl
  unfold invoice_safe
  have hs : copy_safe l = true := decide_eq_true h1
  rw [hs, Bool.true_and]
  cases hk : keeps codes l with
  | false => rfl
  | true =>
    have hne : harvest_field l ≠ [] := by
      unfold harvest_field
      by_cases hc : ',' ∈ l
      · rw [if_pos hc]
        exact h2 hk hc
      · rw [if_neg hc]
        exact ((keeps_iff _ _).1 hk).1
    simp [hne]

theorem invoiceSafe_of_wellFormedInvoice {f : Option (List Char)} (h : WellFormedInvoice f)
    (codes : List (List Char)) : InvoiceSafe codes f := by
  intro l hl
  obtain ⟨h1, h2⟩ := h l hl
  refine ⟨?_, fun _ _ => h2⟩
  intro hc
  exact h1 ((first_field_eq_nil_iff l).2 (Or.inr hc))

/-! ## Successful runs -/

/-- A run returns `true` exactly when the four header checks pass and no line
raises an exception; the files are then the extracted ones. -/
theorem extract_customer_data_eq_true_iff (seed : Option (List Char)) (fs fs1 : Files) :
    extract_customer_data seed fs = some (true, fs1) ↔
      first_line seed = SAMPLE_HEADER ∧
      (data_lines seed).all (fun l => decide (l ≠ [])) = true ∧
      first_line fs.customer = CUSTOMER_HEADER ∧
      (data_lines fs.customer).all copy_safe = true ∧
      first_line fs.invoice = INVOICE_HEADER ∧
      (data_lines fs.invoice).all (invoice_safe (seed_codes seed)) = true ∧
      first_line fs.invoice_item = INVOICE_ITEM_HEADER ∧
      (data_lines fs.invoice_item).all copy_safe = true ∧
      fs1 = extracted_files seed fs := by
  rw [extract_customer_data_eq]
  by_cases h1 : first_line seed = SAMPLE_HEADER
  swap
  · simp [h1]
  cases h2 : (data_lines seed).all (fun l => decide (l ≠ []))
  · simp [h1]
  by_cases h3 : first_line fs.customer = CUSTOMER_HEADER
  swap
  · simp [h1, h3]
  cases h4 : (data_lines fs.customer).all copy_safe
  · simp [h1, h3]
  by_cases h5 : first_line fs.invoice = INVOICE_HEADER
  swap
  · simp [h1, h3, h5]
  cases h6 : (data_lines fs.invoice).all (invoice_safe (seed_codes seed))
  · simp [h1, h3, h5]
  by_cases h7 : first_line fs.invoice_item = INVOICE_ITEM_HEADER
  swap
  · simp [h1, h3, h5, h7]
  cases h8 : (data_lines fs.invoice_item).all copy_safe
  · simp [h1, h3, h5, h7]
  simp only [h1, h3, h5, h7, if_true, true_and, Option.some.injEq, Prod.mk.injEq]
  exact eq_comm

theorem newline_not_mem_headers :
    '\n' ∉ CUSTOMER_HEADER ∧ '\n' ∉ INVOICE_HEADER ∧ '\n' ∉ INVOICE_ITEM_HEADER := by
  decide

theorem data_lines_extracted_customer (seed : Option (List Char)) (fs : Files) :
    data_lines (extracted_files seed fs).extracted_customer =
      (data_lines fs.customer).filter (keeps (seed_codes seed)) :=
  data_lines_extracted_text newline_not_mem_headers.1 _ _

theorem data_lines_extracted_invoice (seed : Option (List Char)) (fs : Files) :
    data_lines (extracted_files seed fs).extracted_invoice =
      (data_lines fs.invoice).filter (keeps (seed_codes seed)) :=
  data_lines_extracted_text newline_not_mem_headers.2.1 _ _

theorem data_lines_extracted_invoice_item (seed : Option (List Char)) (fs : Files) :
    data_lines (extracted_files seed fs).extracted_invoice_item =
      (data_lines fs.invoice_item).filter
        (keeps (harvest (seed_codes seed) (data_lines fs.invoice))) :=
  data_lines_extracted_text newline_not_mem_headers.2.2 _ _

theorem mem_harvest {codes ls : List (List Char)} {k : List Char} :
    k ∈ harvest codes ls ↔
      ∃ r ∈ ls, keeps codes r = true ∧ trim_value (harvest_field r) = k := by
  unfold harvest
  simp only [List.mem_map, List.mem_filter]
  constructor
  · rintro ⟨r, ⟨hr, hk⟩, e⟩
    exact ⟨r, hr, hk, e⟩
  · rintro ⟨r, hr, hk, e⟩
    exact ⟨r, ⟨hr, hk⟩, e⟩

theorem decoded_eq_of_trim_value {a b : List Char} (ha : a ≠ []) (hb : b ≠ [])
    (h : trim_value a = trim_value b) : decoded_eq a b := by
  unfold decoded_eq
  rw [trim_quotes_of_ne_nil ha, trim_quotes_of_ne_nil hb, h]
  exact ⟨by simp, rfl⟩

theorem decoded_eq_iff {a b : List Char} :
    decoded_eq a b ↔ a ≠ [] ∧ b ≠ [] ∧ trim_value a = trim_value b := by
  constructor
  · rintro ⟨h1, h2⟩
    have ha : a ≠ [] := fun e => h1 (trim_quotes_eq_none_iff.2 e)
    have hb : b ≠ [] := by
      intro e
      rw [e, trim_quotes_nil] at h2
      exact h1 h2
    rw [trim_quotes_of_ne_nil ha, trim_quotes_of_ne_nil hb] at h2
    exact ⟨ha, hb, Option.some.inj h2⟩
  · rintro ⟨ha, hb, h⟩
    exact decoded_eq_of_trim_value ha hb h

/-- With well-formed invoice and invoice item rows, an invoice item row is kept
for the collected invoice codes exactly when it is in the closure. -/
theorem keeps_harvest_eq {seed invoice : Option (List Char)} (hi : WellFormedInvoice invoice)
    {row : List Char} (hrow : first_field row ≠ []) :
    keeps (harvest (seed_codes seed) (data_lines invoice)) row =
      decide (in_closure seed invoice row) := by
  rw [Bool.eq_iff_iff, keeps_iff, decide_eq_true_iff]
  unfold in_closure
  constructor
  · rintro ⟨_, hmem⟩
    obtain ⟨r, hr, hk, e⟩ := mem_harvest.1 hmem
    rw [harvest_field_of_second (hi r hr).2] at e
    exact ⟨r, hr, ((keeps_iff _ _).1 hk).2, e.symm⟩
  · rintro ⟨r, hr, hk, e⟩
    refine ⟨hrow, mem_harvest.2 ⟨r, hr, (keeps_iff _ _).2 ⟨(hi r hr).1, hk⟩, ?_⟩⟩
    rw [harvest_field_of_second (hi r hr).2]
    exact e.symm

theorem keeps_congr {c1 c2 : List (List Char)} (h : ∀ k, k ∈ c1 ↔ k ∈ c2) (l : List Char) :
    keeps c1 l = keeps c2 l := by
  unfold keeps
  congr 1
  exact decide_eq_decide.2 (h _)

theorem invoice_safe_congr {c1 c2 : List (List Char)} (h : ∀ k, k ∈ c1 ↔ k ∈ c2)
    (l : List Char) : invoice_safe c1 l = invoice_safe c2 l := by
  unfold invoice_safe
  rw [keeps_congr h]

theorem extracted_text_congr (header : List Char) {c1 c2 : List (List Char)}
    (h : ∀ k, k ∈ c1 ↔ k ∈ c2) (f : Option (List Char)) :
    extracted_text header c1 f = extracted_text header c2 f := by
  unfold extracted_text
  rw [funext (keeps_congr h)]

theorem all_congr_perm {p : List Char → Bool} {l1 l2 : List (List Char)} (h : l1.Perm l2) :
    l1.all p = l2.all p := by
  rw [Bool.eq_iff_iff, List.all_eq_true, List.all_eq_true]
  exact ⟨fun h1 x hx => h1 x (h.mem_iff.2 hx), fun h1 x hx => h1 x (h.mem_iff.1 hx)⟩

theorem mem_harvest_perm {codes l1 l2 : List (List Char)} (h : l1.Perm l2) (k : List Char) :
    k ∈ harvest codes l1 ↔ k ∈ harvest codes l2 := by
  rw [mem_harvest, mem_harvest]
  constructor
  · rintro ⟨r, hr, hk⟩
    exact ⟨r, h.mem_iff.1 hr, hk⟩
  · rintro ⟨r, hr, hk⟩
    exact ⟨r, h.mem_iff.2 hr, hk⟩

theorem filter_keeps_eq_nil {codes ls : List (List Char)}
    (h : ∀ l ∈ ls, trim_value (first_field l) ∉ codes) : ls.filter (keeps codes) = [] := by
  rw [List.filter_eq_nil_iff]
  intro l hl hk
  exact h l hl ((keeps_iff _ _).1 hk).2

theorem extracted_text_of_filter_nil {header : List Char} {codes : List (List Char)}
    {f : Option (List Char)} (h : (data_lines f).filter (keeps codes) = []) :
    extracted_text header codes f = header ++ ['\n'] := by
  unfold extracted_text
  rw [h]
  rfl

theorem all_invoice_safe_of_filter_nil {codes ls : List (List Char)}
    (hs : ls.all copy_safe = true) (h : ls.filter (keeps codes) = []) :
    ls.all (invoice_safe codes) = true := by
  rw [List.all_eq_true] at hs ⊢
  intro l hl
  have hk : keeps codes l = false := by
    cases hk : keeps codes l with
    | false => rfl
    | true => exact absurd hk (List.filter_eq_nil_iff.1 h l hl)
  unfold invoice_safe
  rw [hk, hs l hl]
  rfl

/-- With the four headers right a run either raises an exception or returns
`true` with the extracted files. -/
theorem extract_customer_data_of_headers {seed : Option (List Char)} {fs : Files}
    (h1 : first_line seed = SAMPLE_HEADER) (h2 : first_line fs.customer = CUSTOMER_HEADER)
    (h3 : first_line fs.invoice = INVOICE_HEADER)
    (h4 : first_line fs.invoice_item = INVOICE_ITEM_HEADER) {b : Bool} {fs1 : Files}
    (hrun : extract_customer_data seed fs = some (b, fs1)) :
    b = true ∧ fs1 = extracted_files seed fs := by
  rw [extract_customer_data_eq, if_pos h1, if_pos h2, if_pos h3, if_pos h4] at hrun
  split_ifs at hrun
  simp only [Option.some.injEq, Prod.mk.injEq] at hrun
  exact ⟨hrun.1.symm, hrun.2.symm⟩

theorem header_only_extracted_files {seed : Option (List Char)} {fs : Files}
    (nc : (data_lines fs.customer).filter (keeps (seed_codes seed)) = [])
    (ni : (data_lines fs.invoice).filter (keeps (seed_codes seed)) = []) :
    header_only (extracted_files seed fs) := by
  have hh : harvest (seed_codes seed) (data_lines fs.invoice) = [] := by
    unfold harvest
    rw [ni]
    rfl
  refine ⟨?_, ?_, ?_⟩
  · show some _ = some _
    rw [extracted_text_of_filter_nil nc]
  · show some _ = some _
    rw [extracted_text_of_filter_nil ni]
  · show some _ = some _
    rw [hh, extracted_text_of_filter_nil (filter_keeps_eq_nil (fun l _ => List.not_mem_nil _))]

/-- A run with the four headers right in which no line raises an exception and
no customer row and no invoice row is kept returns `true`. -/
theorem run_without_kept_rows {seed : Option (List Char)} {fs : Files}
    (h1 : first_line seed = SAMPLE_HEADER) (h2 : first_line fs.customer = CUSTOMER_HEADER)
    (h3 : first_line fs.invoice = INVOICE_HEADER)
    (h4 : first_line fs.invoice_item = INVOICE_ITEM_HEADER)
    (ws : WellFormedSeed seed) (wc : NoLeadingComma fs.customer)
    (wi : NoLeadingComma fs.invoice) (wt : NoLeadingComma fs.invoice_item)
    (ni : (data_lines fs.invoice).filter (keeps (seed_codes seed)) = []) :
    extract_customer_data seed fs = some (true, extracted_files seed fs) := by
  rw [extract_customer_data_eq_true_iff]
  exact ⟨h1, all_ne_nil_of_wellFormedSeed ws, h2, all_copy_safe_of_noLeadingComma wc, h3,
    all_invoice_safe_of_filter_nil (all_copy_safe_of_noLeadingComma wi) ni, h4,
    all_copy_safe_of_noLeadingComma wt, rfl⟩

theorem first_field_of_not_mem {l : List Char} (h : ',' ∉ l) : first_field l = l := by
  unfold first_field
  rw [take_line_of_not_mem h]

theorem keeps_nil (codes : List (List Char)) : keeps codes [] = false := by
  simp [keeps, first_field_nil]

theorem nil_not_mem_filter_keeps (codes ls : List (List Char)) :
    [] ∉ ls.filter (keeps codes) := by
  intro h
  have := (List.mem_filter.1 h).2
  rw [keeps_nil] at this
  cases this

theorem mem_filter_keeps_of_commaless {codes ls : List (List Char)} {l : List Char}
    (hl : l ∈ ls) (hne : l ≠ []) (hc : ',' ∉ l) :
    l ∈ ls.filter (keeps codes) ↔ trim_value l ∈ codes := by
  rw [List.mem_filter, keeps_iff, first_field_of_not_mem hc]
  exact ⟨fun h => h.2.2, fun h => ⟨hl, hne, h⟩⟩

/-- The order `operator<` of strings is the lexicographic order of the
character codes. -/
theorem strLt_iff_lex (a b : List Char) :
    strLt a b = true ↔ List.Lex (fun x y : Char => x.toNat < y.toNat) a b := by
  induction a generalizing b with
  | nil =>
    cases b with
    | nil => simp [strLt]
    | cons y ys => simp [strLt, List.Lex.nil]
  | cons x xs ih =>
    cases b with
    | nil => simp [strLt]
    | cons y ys =>
      simp only [strLt]
      by_cases h1 : x.toNat < y.toNat
      · simp only [h1, if_true, true_iff]
        exact List.Lex.rel h1
      · by_cases h2 : y.toNat < x.toNat
        · simp only [h1, h2, if_false, if_true, Bool.false_eq_true, false_iff]
          intro h
          cases h with
          | cons h => omega
          | rel h => exact h1 h
        · simp only [h1, h2, if_false]
          have hxy : x = y := by
            have e : x.toNat = y.toNat := by omega
            rw [← Char.ofNat_toNat x, ← Char.ofNat_toNat y, e]
          subst hxy
          rw [ih]
          constructor
          · exact List.Lex.cons
          · intro h
            cases h with
            | cons h => exact h
            | rel h => exact absurd h h1

theorem strictAscending_iff_lex (v : List (List Char)) :
    StrictAscending v ↔ v.Pairwise (List.Lex (fun x y : Char => x.toNat < y.toNat)) := by
  unfold StrictAscending
  constructor
  · exact List.Pairwise.imp (fun h => (strLt_iff_lex _ _).1 h)
  · exact List.Pairwise.imp (fun h => (strLt_iff_lex _ _).2 h)

theorem strictAscending_nodup {v : List (List Char)} (h : StrictAscending v) : v.Nodup := by
  unfold StrictAscending at h
  exact List.Pairwise.imp (fun {a b} hab e => by rw [e, strLt_irrefl] at hab; cases hab) h

theorem first_line_none : first_line none = [] :=
  first_line_of_lines_nil lines_none

theorem first_line_none_ne_sample_header : first_line none ≠ SAMPLE_HEADER := by
  rw [first_line_none]
  decide

theorem harvested_invoice_codes_eq {codes : List (List Char)} (hc : Ascending codes)
    (fs : Files) :
    harvested_invoice_codes codes fs =
      if (data_lines fs.invoice).all (invoice_safe codes) then
        some (harvest codes (data_lines fs.invoice))
      else none := by
  unfold harvested_invoice_codes
  simp only [while_getline_data, foldlM_invoice_body hc]
  cases h : (data_lines fs.invoice).all (invoice_safe codes)
  · simp
  · simp [harvest]

/-- The vector of `harvested_invoice_codes` is the one on which
`extract_invoices_and_items` calls `extract_invoice_items`, and an exception in
the harvesting loop is an exception of `extract_invoices_and_items`. -/
theorem extract_invoices_and_items_of_harvested (codes : List (List Char)) (fs : Files)
    (hh : first_line fs.invoice = INVOICE_HEADER) :
    (harvested_invoice_codes codes fs = none → extract_invoices_and_items codes fs = none) ∧
    (∀ v, harvested_invoice_codes codes fs = some v →
      ∃ out, extract_invoices_and_items codes fs =
        (extract_invoice_items v { fs with extracted_invoice := some out }).map
          (fun r => (r.1, r.2.2))) := by
  unfold harvested_invoice_codes extract_invoices_and_items
  simp only [getline_ifstream_snd, compare_ne_zero_iff, hh, ne_eq, not_true_eq_false, if_false]
  cases hl : while_getline (invoice_body codes) (getline (ifstream fs.invoice) [] '\n').1.fuel
      (getline (ifstream fs.invoice) [] '\n').1 (INVOICE_HEADER ++ ['\n'], []) with
  | none => simp
  | some st =>
    refine ⟨by simp, ?_⟩
    intro v hv
    simp only [Option.map_some', Option.some.injEq] at hv
    subst hv
    refine ⟨st.1, ?_⟩
    dsimp only
    cases extract_invoice_items st.2 { fs with extracted_invoice := some st.1 } <;> rfl

theorem harvest_eq_map_second_field {codes ls : List (List Char)}
    (h : ∀ l ∈ ls, keeps codes l = true → ',' ∈ l) :
    harvest codes ls = (ls.filter (keeps codes)).map (fun l => trim_value (second_field l)) := by
  unfold harvest
  apply List.map_congr_left
  intro l hl
  obtain ⟨h1, h2⟩ := List.mem_filter.1 hl
  unfold harvest_field
  rw [if_pos (h l h1 h2)]

theorem invoiceSafe_of_matchedHaveSecondField {codes : List (List Char)}
    {f : Option (List Char)} (h1 : NoLeadingComma f) (h2 : MatchedHaveSecondField codes f) :
    InvoiceSafe codes f :=
  fun l hl => ⟨h1 l hl, fun hk _ => h2 l hl hk⟩

theorem getLast_unlines (l : List Char) (ls : List (List Char)) :
    (unlines (l :: ls)).getLast? = some '\n' := by
  induction ls generalizing l with
  | nil => simp [unlines]
  | cons m ms ih =>
    have h := ih m
    rw [unlines, List.getLast?_append, List.getLast?_cons, h]
    rfl

theorem first_line_extracted_text {header : List Char} (hh : '\n' ∉ header)
    (codes : List (List Char)) (f : Option (List Char)) :
    first_line (some (extracted_text header codes f)) = header := by
  unfold extracted_text
  rw [first_line, lines_unlines]
  · rfl
  · intro l hl
    rcases List.mem_cons.1 hl with rfl | hl
    · exact hh
    · exact not_mem_of_mem_data_lines (List.mem_of_mem_filter hl)

theorem lines_extracted_text {header : List Char} (hh : '\n' ∉ header)
    (codes : List (List Char)) (f : Option (List Char)) :
    lines (some (extracted_text header codes f)) =
      header :: (data_lines f).filter (keeps codes) := by
  unfold extracted_text
  apply lines_unlines
  intro l hl
  rcases List.mem_cons.1 hl with rfl | hl
  · exact hh
  · exact not_mem_of_mem_data_lines (List.mem_of_mem_filter hl)

theorem split_at_first {d : Char} : ∀ (c : List Char), d ∈ c →
    ∃ l rest, c = l ++ d :: rest ∧ d ∉ l := by
  intro c
  induction c with
  | nil => intro h; cases h
  | cons a cs ih =>
    intro h
    by_cases e : a = d
    · exact ⟨[], cs, by rw [e]; rfl, List.not_mem_nil _⟩
    · rcases List.mem_cons.1 h with h1 | h1
      · exact absurd h1.symm e
      · obtain ⟨l, rest, e1, e2⟩ := ih h1
        refine ⟨a :: l, rest, by rw [e1]; rfl, ?_⟩
        intro hm
        rcases List.mem_cons.1 hm with h2 | h2
        · exact e h2.symm
        · exact e2 h2

/-- A first line ended by a newline is read, and the reading goes on with what
follows the newline. -/
theorem lines_cons_line {l : List Char} (hl : '\n' ∉ l) (rest : List Char) :
    lines (some (l ++ '\n' :: rest)) = l :: lines (some rest) := by
  have hg : getline ⟨l ++ '\n' :: rest, false, false⟩ [] '\n' =
      (⟨rest, false, false⟩, l) := by
    rw [getline_of_good (by rfl)]
    simp only [take_line_append hl]
    simp
  unfold lines
  simp only [ifstream, IStream.fuel]
  rw [read_lines, hg]
  simp only [Bool.false_eq_true, if_false]
  rw [read_lines_stable _ (rest.length + 1) ⟨rest, false, false⟩
    (by simp only [List.length_append, List.length_cons]; omega) (by simp only; omega)]

/-- A text without a newline that is not empty is read as one line. -/
theorem lines_of_not_mem {l : List Char} (hne : l ≠ []) (hl : '\n' ∉ l) :
    lines (some l) = [l] := by
  have hg : getline ⟨l, false, false⟩ [] '\n' = (⟨[], true, false⟩, l) := by
    rw [getline_of_good (by rfl)]
    simp only [take_line_of_not_mem hl]
    cases l with
    | nil => exact absurd rfl hne
    | cons a as => simp
  unfold lines
  simp only [ifstream, IStream.fuel]
  rw [read_lines, hg]
  simp only [Bool.false_eq_true, if_false]
  cases h : l.length with
  | zero => rfl
  | succ n => simp [read_lines, getline, IStream.good]

/-- What follows a newline is read as if it were a text of its own. -/
theorem lines_append_newline : ∀ (n : Nat) (c : List Char), c.length ≤ n →
    ∀ c2, lines (some (c ++ '\n' :: c2)) = lines (some (c ++ ['\n'])) ++ lines (some c2) := by
  intro n
  induction n with
  | zero =>
    intro c hc c2
    have : c = [] := List.length_eq_zero.1 (by omega)
    subst this
    have h0 : '\n' ∉ ([] : List Char) := List.not_mem_nil _
    have e1 := lines_cons_line h0 c2
    have e2 := lines_cons_line h0 []
    simp only [List.nil_append] at e1 e2 ⊢
    rw [e1, e2, lines_some_nil]
    rfl
  | succ n ih =>
    intro c hc c2
    by_cases hm : '\n' ∈ c
    · obtain ⟨l, rest, e, hl⟩ := split_at_first c hm
      subst e
      have hr : rest.length ≤ n := by
        simp only [List.length_append, List.length_cons] at hc
        omega
      have e1 : (l ++ '\n' :: rest) ++ '\n' :: c2 = l ++ '\n' :: (rest ++ '\n' :: c2) := by simp
      have e2 : (l ++ '\n' :: rest) ++ ['\n'] = l ++ '\n' :: (rest ++ ['\n']) := by simp
      rw [e1, e2, lines_cons_line hl, lines_cons_line hl, ih rest hr c2]
      rfl
    · have e2 := lines_cons_line hm []
      rw [lines_cons_line hm, e2, lines_some_nil]
      rfl

/-- A text whose last line is not ended by a newline is read as the same text
with the newline: the last line is what follows the last newline. -/
theorem lines_unterminated (c : List Char) {last : List Char} (hne : last ≠ [])
    (hl : '\n' ∉ last) :
    lines (some (c ++ '\n' :: last)) = lines (some (c ++ ['\n'])) ++ [last] ∧
    lines (some (c ++ '\n' :: (last ++ ['\n']))) = lines (some (c ++ ['\n'])) ++ [last] := by
  constructor
  · rw [lines_append_newline c.length c (le_refl _), lines_of_not_mem hne hl]
  · rw [lines_append_newline c.length c (le_refl _)]
    have := lines_cons_line hl []
    rw [lines_some_nil] at this
    rw [this]

theorem lines_newline_ne_nil (c : List Char) : lines (some (c ++ ['\n'])) ≠ [] := by
  by_cases hm : '\n' ∈ c
  · obtain ⟨l, rest, e, hl⟩ := split_at_first c hm
    subst e
    have e2 : (l ++ '\n' :: rest) ++ ['\n'] = l ++ '\n' :: (rest ++ ['\n']) := by simp
    rw [e2, lines_cons_line hl]
    exact List.cons_ne_nil _ _
  · rw [lines_cons_line hm]
    exact List.cons_ne_nil _ _

theorem data_lines_unterminated (c : List Char) {last : List Char} (hne : last ≠ [])
    (hl : '\n' ∉ last) :
    data_lines (some (c ++ '\n' :: last)) = data_lines (some (c ++ ['\n'])) ++ [last] := by
  unfold data_lines
  rw [(lines_unterminated c hne hl).1]
  cases h : lines (some (c ++ ['\n'])) with
  | nil => exact absurd h (lines_newline_ne_nil c)
  | cons a as => rfl

theorem unlines_concat (ls : List (List Char)) (l : List Char) :
    unlines (ls ++ [l]) = unlines ls ++ (l ++ ['\n']) := by
  rw [unlines_append]
  simp [unlines]

theorem extracted_text_concat {header : List Char} {codes : List (List Char)}
    {f : Option (List Char)} {init : List (List Char)} {l : List Char}
    (h : data_lines f = init ++ [l]) (hk : keeps codes l = true) :
    extracted_text header codes f =
      unlines (header :: init.filter (keeps codes)) ++ (l ++ ['\n']) := by
  unfold extracted_text
  rw [h, List.filter_append, List.filter_cons_of_pos hk, List.filter_nil,
    ← List.cons_append, unlines_concat]

/-- The text a copying loop produces has the shape of an extracted text. -/
theorem wellTerminated_extracted_text {header : List Char} (hh : '\n' ∉ header)
    (codes : List (List Char)) (f : Option (List Char)) :
    WellTerminated header codes f (extracted_text header codes f) := by
  refine ⟨⟨unlines ((data_lines f).filter (keeps codes)), rfl⟩, ?_, ?_, ?_,
    first_line_extracted_text hh codes f, data_lines_extracted_text hh codes f, ?_⟩
  · unfold extracted_text
    simp [unlines]
  · exact getLast_unlines _ _
  · rw [lines_extracted_text hh]
    rfl
  · intro init l h hk
    exact extracted_text_concat h hk

theorem filter_keeps_idem (codes ls : List (List Char)) :
    (ls.filter (keeps codes)).filter (keeps codes) = ls.filter (keeps codes) := by
  rw [List.filter_filter]
  congr 1
  funext l
  exact Bool.and_self _

theorem all_filter_of_all {p : List Char → Bool} (q : List Char → Bool)
    {ls : List (List Char)} (h : ls.all p = true) : (ls.filter q).all p = true := by
  rw [List.all_eq_true] at h ⊢
  exact fun l hl => h l (List.mem_of_mem_filter hl)

theorem harvest_filter_keeps (codes ls : List (List Char)) :
    harvest codes (ls.filter (keeps codes)) = harvest codes ls := by
  unfold harvest
  rw [filter_keeps_idem]

/-- Reading an extracted text back as a master and copying it for the same keys
gives the same text. -/
theorem extracted_text_idem {header : List Char} (hh : '\n' ∉ header)
    (codes : List (List Char)) (f : Option (List Char)) :
    extracted_text header codes (some (extracted_text header codes f)) =
      extracted_text header codes f := by
  show unlines (header ::
      (data_lines (some (extracted_text header codes f))).filter (keeps codes)) =
    unlines (header :: (data_lines f).filter (keeps codes))
  rw [data_lines_extracted_text hh, filter_keeps_idem]

theorem all_ne_nil_eq_false_iff (ls : List (List Char)) :
    ls.all (fun l => decide (l ≠ [])) = false ↔ [] ∈ ls := by
  induction ls with
  | nil => simp
  | cons l ls ih =>
    rw [List.all_cons, Bool.and_eq_false_iff, ih, List.mem_cons]
    constructor
    · rintro (h | h)
      · left
        simp only [ne_eq, decide_not, Bool.not_eq_false', decide_eq_true_eq] at h
        exact h.symm
      · exact Or.inr h
    · rintro (h | h)
      · left
        simp [← h]
      · exact Or.inr h

/-- When `set_customer_codes` raises the exception: the header check passed and
some data line is empty. -/
theorem set_customer_codes_eq_none_iff (seed : Option (List Char))
    (codes : List (List Char)) :
    set_customer_codes seed codes = none ↔
      first_line seed = SAMPLE_HEADER ∧ [] ∈ data_lines seed := by
  rw [set_customer_codes_eq, ← all_ne_nil_eq_false_iff]
  by_cases h1 : first_line seed = SAMPLE_HEADER
  · rw [if_pos h1]
    cases h : (data_lines seed).all (fun l => decide (l ≠ []))
    · simp [h1]
    · simp
  · rw [if_neg h1]
    simp [h1]

/-! ## The test suite, evaluated on the embedding -/

set_option maxRecDepth 100000

/-- The test `happy_path`: the three extracted files equal the three masters. -/
theorem test_happy_path :
    extract_customer_data (some DEFAULT_CUSTOMER_SAMPLE_FILE) DEFAULT_FILES =
      some (true,
        ⟨some DEFAULT_CUSTOMER_FILE, some DEFAULT_INVOICE_FILE, some DEFAULT_INVOICE_ITEM_FILE,
          some DEFAULT_CUSTOMER_FILE, some DEFAULT_INVOICE_FILE,
          some DEFAULT_INVOICE_ITEM_FILE⟩) := by
  decide

/-- The test `incorrect_header_format`. -/
theorem test_incorrect_header_format :
    extract_customer_data (some ("\"BAD_HEADER\"\n" ++ "\"DATA1\"\n" ++ "\"DATA2\"\n").toList)
      DEFAULT_FILES = some (false, DEFAULT_FILES) := by
  decide

/-- The tests `input_file_does_not_exist` and `empty_path`: the sample file
cannot be opened. -/
theorem test_input_file_does_not_exist :
    extract_customer_data none DEFAULT_FILES = some (false, DEFAULT_FILES) := by
  decide

/-- The test `empty_input_file`. -/
theorem test_empty_input_file :
    extract_customer_data (some []) DEFAULT_FILES = some (false, DEFAULT_FILES) := by
  decide

/-- The tests `customer_file_does_not_exist`, `invoice_file_does_not_exist` and
`invoice_item_file_does_not_exist`. -/
theorem test_master_file_does_not_exist :
    (extract_customer_data (some DEFAULT_CUSTOMER_SAMPLE_FILE)
      { DEFAULT_FILES with customer := none }).map Prod.fst = some false ∧
    (extract_customer_data (some DEFAULT_CUSTOMER_SAMPLE_FILE)
      { DEFAULT_FILES with invoice := none }).map Prod.fst = some false ∧
    (extract_customer_data (some DEFAULT_CUSTOMER_SAMPLE_FILE)
      { DEFAULT_FILES with invoice_item := none }).map Prod.fst = some false := by
  decide

/-- The test `subset_of_customers`. -/
theorem test_subset_of_customers :
    extract_customer_data (some SUBSET_SAMPLE_FILE) DEFAULT_FILES =
      some (true,
        ⟨some DEFAULT_CUSTOMER_FILE, some DEFAULT_INVOICE_FILE, some DEFAULT_INVOICE_ITEM_FILE,
          some ("\"CUSTOMER_CODE\",\"FIRSTNAME\",\"LASTNAME\"\n" ++
                "\"CUST0000010235\",\"George\",\"Lucas\"\n").toList,
          some ("\"CUSTOMER_CODE\",\"INVOICE_CODE\",\"AMOUNT\",\"DATE\"\n" ++
                "\"CUST0000010235\",\"IN0000002\",\"186.53\",\"01-Jan-2016\"\n").toList,
          some ("\"INVOICE_CODE\",\"ITEM_CODE\",\"AMOUNT\",\"QUANTITY\"\n" ++
                "\"IN0000002\",\"MEIJI\",\"113.40\",\"150\"\n" ++
                "\"IN0000002\",\"PUCCHO\",\"73.13\",\"150\"\n").toList⟩) := by
  decide

/-- The test `subset_of_customers2`. -/
theorem test_subset_of_customers2 :
    extract_customer_data (some SUBSET2_SAMPLE_FILE) DEFAULT_FILES =
      some (true,
        ⟨some DEFAULT_CUSTOMER_FILE, some DEFAULT_INVOICE_FILE, some DEFAULT_INVOICE_ITEM_FILE,
          some ("\"CUSTOMER_CODE\",\"FIRSTNAME\",\"LASTNAME\"\n" ++
                "\"CUST0000010231\",\"Maria\",\"Alba\"\n").toList,
          some ("\"CUSTOMER_CODE\",\"INVOICE_CODE\",\"AMOUNT\",\"DATE\"\n" ++
                "\"CUST0000010231\",\"IN0000001\",\"105.50\",\"01-Jan-2016\"\n" ++
                "\"CUST0000010231\",\"IN0000003\",\"114.14\",\"01-Feb-2016\"\n").toList,
          some SUBSET2_EXPECTED_INVOICE_ITEM⟩) := by
  decide

/-- The test `duplicate_customer_codes`. -/
theorem test_duplicate_customer_codes :
    extract_customer_data (some DUPLICATE_SAMPLE_FILE) DEFAULT_FILES =
      some (true,
        ⟨some DEFAULT_CUSTOMER_FILE, some DEFAULT_INVOICE_FILE, some DEFAULT_INVOICE_ITEM_FILE,
          some DEFAULT_CUSTOMER_FILE, some DEFAULT_INVOICE_FILE,
          some DEFAULT_INVOICE_ITEM_FILE⟩) := by
  decide

/-- The test `no_matching_customers`. -/
theorem test_no_matching_customers :
    extract_customer_data (some NO_MATCH_SAMPLE_FILE) DEFAULT_FILES =
      some (true,
        ⟨some DEFAULT_CUSTOMER_FILE, some DEFAULT_INVOICE_FILE, some DEFAULT_INVOICE_ITEM_FILE,
          some ("\"CUSTOMER_CODE\",\"FIRSTNAME\",\"LASTNAME\"\n").toList,
          some ("\"CUSTOMER_CODE\",\"INVOICE_CODE\",\"AMOUNT\",\"DATE\"\n").toList,
          some ("\"INVOICE_CODE\",\"ITEM_CODE\",\"AMOUNT\",\"QUANTITY\"\n").toList⟩) := by
  decide

/-- A blank line in the sample file: `substr` throws on the empty string and
the call does not return. -/
theorem blank_seed_line_throws :
    set_customer_codes
        (some ("\"CUSTOMER_CODE\"\n" ++ "\"CUST0000010231\"\n" ++ "\n" ++
          "\"CUST0000010235\"\n").toList) [] = none ∧
    extract_customer_data
        (some ("\"CUSTOMER_CODE\"\n" ++ "\"CUST0000010231\"\n" ++ "\n" ++
          "\"CUST0000010235\"\n").toList) DEFAULT_FILES = none := by
  decide

/-! ## The claims -/

/-- Claim C1. When the data lines of the four input files are well formed,
`extract_customer_data` returns, and it returns `true` exactly when the first
line of each of the four files is the expected header, character for
character. -/
theorem extract_customer_data_true_iff_headers (seed : Option (List Char)) (fs : Files)
    (hs : WellFormedSeed seed) (hc : WellFormedMaster fs.customer)
    (hi : WellFormedInvoice fs.invoice) (ht : WellFormedMaster fs.invoice_item) :
    ∃ b fs1, extract_customer_data seed fs = some (b, fs1) ∧
      (b = true ↔
        first_line seed = "\"CUSTOMER_CODE\"".toList ∧
        first_line fs.customer = "\"CUSTOMER_CODE\",\"FIRSTNAME\",\"LASTNAME\"".toList ∧
        first_line fs.invoice =
          "\"CUSTOMER_CODE\",\"INVOICE_CODE\",\"AMOUNT\",\"DATE\"".toList ∧
        first_line fs.invoice_item =
          "\"INVOICE_CODE\",\"ITEM_CODE\",\"AMOUNT\",\"QUANTITY\"".toList) := by
  rw [extract_customer_data_eq]
  simp only [all_ne_nil_of_wellFormedSeed hs, all_copy_safe_of_wellFormedMaster hc,
    all_invoice_safe_of_wellFormedInvoice hi, all_copy_safe_of_wellFormedMaster ht, if_true]
  change ∃ b fs1, _ ∧ (b = true ↔ first_line seed = SAMPLE_HEADER ∧
    first_line fs.customer = CUSTOMER_HEADER ∧ first_line fs.invoice = INVOICE_HEADER ∧
    first_line fs.invoice_item = INVOICE_ITEM_HEADER)
  by_cases h1 : first_line seed = SAMPLE_HEADER
  swap
  · exact ⟨false, _, by rw [if_neg h1], by simp [h1]⟩
  by_cases h2 : first_line fs.customer = CUSTOMER_HEADER
  swap
  · exact ⟨false, _, by rw [if_pos h1, if_neg h2], by simp [h2]⟩
  by_cases h3 : first_line fs.invoice = INVOICE_HEADER
  swap
  · exact ⟨false, _, by rw [if_pos h1, if_pos h2, if_neg h3], by simp [h3]⟩
  by_cases h4 : first_line fs.invoice_item = INVOICE_ITEM_HEADER
  swap
  · exact ⟨false, _, by rw [if_pos h1, if_pos h2, if_pos h3, if_neg h4], by simp [h4]⟩
  exact ⟨true, _, by rw [if_pos h1, if_pos h2, if_pos h3, if_pos h4], by simp [h1, h2, h3, h4]⟩

theorem extract_customer_data_true_iff_headers_witness :
    WellFormedSeed (some DEFAULT_CUSTOMER_SAMPLE_FILE) ∧
    WellFormedMaster DEFAULT_FILES.customer ∧
    WellFormedInvoice DEFAULT_FILES.invoice ∧
    WellFormedMaster DEFAULT_FILES.invoice_item ∧
    ∃ b fs1, extract_customer_data (some DEFAULT_CUSTOMER_SAMPLE_FILE) DEFAULT_FILES
        = some (b, fs1) ∧
      (b = true ↔
        first_line (some DEFAULT_CUSTOMER_SAMPLE_FILE) = "\"CUSTOMER_CODE\"".toList ∧
        first_line DEFAULT_FILES.customer =
          "\"CUSTOMER_CODE\",\"FIRSTNAME\",\"LASTNAME\"".toList ∧
        first_line DEFAULT_FILES.invoice =
          "\"CUSTOMER_CODE\",\"INVOICE_CODE\",\"AMOUNT\",\"DATE\"".toList ∧
        first_line DEFAULT_FILES.invoice_item =
          "\"INVOICE_CODE\",\"ITEM_CODE\",\"AMOUNT\",\"QUANTITY\"".toList) :=
  ⟨by unfold WellFormedSeed; decide, by unfold WellFormedMaster; decide,
   by unfold WellFormedInvoice; decide, by unfold WellFormedMaster; decide,
   extract_customer_data_true_iff_headers _ _ (by unfold WellFormedSeed; decide)
     (by unfold WellFormedMaster; decide) (by unfold WellFormedInvoice; decide)
     (by unfold WellFormedMaster; decide)⟩

/-- Claim C2. A sample file that does not exist or has no line makes
`set_customer_codes` return `false`, leaving the vector as it was, and makes
`extract_customer_data` return `false`; and when the customer master, the
invoice master or the invoice item master does not exist,
`extract_customer_data` returns `false`, the files read before the missing
one raising no exception (no empty data line in the sample file, no data line
of a master that begins with a comma, a second field in the invoice rows that
are kept and have a comma).  Whatever
the files hold, a run with one of the four files missing never returns
`true`. -/
theorem missing_file_returns_false (seed : Option (List Char)) (fs : Files) :
    (∀ codes, set_customer_codes none codes = some (false, codes)) ∧
    (∀ codes, lines seed = [] → set_customer_codes seed codes = some (false, codes)) ∧
    (lines seed = [] → extract_customer_data seed fs = some (false, fs)) ∧
    (WellFormedSeed seed → fs.customer = none →
      ∃ fs1, extract_customer_data seed fs = some (false, fs1)) ∧
    (WellFormedSeed seed → NoLeadingComma fs.customer → fs.invoice = none →
      ∃ fs1, extract_customer_data seed fs = some (false, fs1)) ∧
    (WellFormedSeed seed → NoLeadingComma fs.customer →
      InvoiceSafe (seed_codes seed) fs.invoice → fs.invoice_item = none →
      ∃ fs1, extract_customer_data seed fs = some (false, fs1)) ∧
    (seed = none ∨ fs.customer = none ∨ fs.invoice = none ∨ fs.invoice_item = none →
      ∀ fs1, extract_customer_data seed fs ≠ some (true, fs1)) := by
  have hS : ¬ ([] : List Char) = SAMPLE_HEADER := by decide
  have hC : ¬ ([] : List Char) = CUSTOMER_HEADER := by decide
  have hI : ¬ ([] : List Char) = INVOICE_HEADER := by decide
  have hT : ¬ ([] : List Char) = INVOICE_ITEM_HEADER := by decide
  have hnone : first_line none = [] := first_line_of_lines_nil lines_none
  refine ⟨?_, ?_, ?_, ?_, ?_, ?_, ?_⟩
  · intro codes
    rw [set_customer_codes_eq, hnone, if_neg hS]
  · intro codes h
    rw [set_customer_codes_eq, first_line_of_lines_nil h, if_neg hS]
  · intro h
    rw [extract_customer_data_eq, first_line_of_lines_nil h, if_neg hS]
  · intro hs hm
    rw [extract_customer_data_eq, hm, hnone, if_neg hC]
    simp only [all_ne_nil_of_wellFormedSeed hs, if_true]
    by_cases h1 : first_line seed = SAMPLE_HEADER
    · exact ⟨_, by rw [if_pos h1]⟩
    · exact ⟨_, by rw [if_neg h1]⟩
  · intro hs hc hm
    rw [extract_customer_data_eq, hm, hnone, if_neg hI]
    simp only [all_ne_nil_of_wellFormedSeed hs, all_copy_safe_of_noLeadingComma hc, if_true]
    by_cases h1 : first_line seed = SAMPLE_HEADER
    · by_cases h2 : first_line fs.customer = CUSTOMER_HEADER
      · exact ⟨_, by rw [if_pos h1, if_pos h2]⟩
      · exact ⟨_, by rw [if_pos h1, if_neg h2]⟩
    · exact ⟨_, by rw [if_neg h1]⟩
  · intro hs hc hi hm
    rw [extract_customer_data_eq, hm, hnone, if_neg hT]
    simp only [all_ne_nil_of_wellFormedSeed hs, all_copy_safe_of_noLeadingComma hc,
      all_invoice_safe_of_invoiceSafe hi, if_true]
    by_cases h1 : first_line seed = SAMPLE_HEADER
    · by_cases h2 : first_line fs.customer = CUSTOMER_HEADER
      · by_cases h3 : first_line fs.invoice = INVOICE_HEADER
        · exact ⟨_, by rw [if_pos h1, if_pos h2, if_pos h3]⟩
        · exact ⟨_, by rw [if_pos h1, if_pos h2, if_neg h3]⟩
      · exact ⟨_, by rw [if_pos h1, if_neg h2]⟩
    · exact ⟨_, by rw [if_neg h1]⟩
  · intro hmiss fs1 hrun
    obtain ⟨g1, _, g2, _, g3, _, g4, _, _⟩ :=
      (extract_customer_data_eq_true_iff seed fs fs1).1 hrun
    rcases hmiss with h | h | h | h
    · rw [h, hnone] at g1; exact hS g1
    · rw [h, hnone] at g2; exact hC g2
    · rw [h, hnone] at g3; exact hI g3
    · rw [h, hnone] at g4; exact hT g4

theorem missing_file_returns_false_witness :
    WellFormedSeed (some DEFAULT_CUSTOMER_SAMPLE_FILE) ∧
    NoLeadingComma FILES_WITHOUT_INVOICE_ITEM.customer ∧
    InvoiceSafe (seed_codes (some DEFAULT_CUSTOMER_SAMPLE_FILE))
      FILES_WITHOUT_INVOICE_ITEM.invoice ∧
    FILES_WITHOUT_INVOICE_ITEM.invoice_item = none ∧
    ∃ fs1, extract_customer_data (some DEFAULT_CUSTOMER_SAMPLE_FILE)
      FILES_WITHOUT_INVOICE_ITEM = some (false, fs1) :=
  ⟨by unfold WellFormedSeed; decide, by unfold NoLeadingComma; decide,
   by unfold InvoiceSafe; decide, rfl,
   (missing_file_returns_false (some DEFAULT_CUSTOMER_SAMPLE_FILE)
      FILES_WITHOUT_INVOICE_ITEM).2.2.2.2.2.1
     (by unfold WellFormedSeed; decide) (by unfold NoLeadingComma; decide)
     (by unfold InvoiceSafe; decide) rfl⟩

/-- Claim C3. With the three headers right and well-formed data lines, the run
leaves in `extracted_customer.csv` (and in `extracted_invoice.csv`) the header
and a newline, and then, in the order of the master, each data line followed by
a newline whose first comma-delimited field, without its first and last
character, is a data line of the sample file without its first and last
character; nothing else is written and no such line is left out. -/
theorem extracted_customer_and_invoice_content (seed : Option (List Char)) (fs : Files)
    (h1 : first_line seed = SAMPLE_HEADER) (h2 : first_line fs.customer = CUSTOMER_HEADER)
    (h3 : first_line fs.invoice = INVOICE_HEADER)
    (hs : WellFormedSeed seed) (hc : WellFormedMaster fs.customer)
    (hi : WellFormedInvoice fs.invoice) (ht : NoLeadingComma fs.invoice_item)
    (zs : Sized seed) (zc : Sized fs.customer) (zi : Sized fs.invoice) :
    ∃ b fs1, extract_customer_data seed fs = some (b, fs1) ∧
      fs1.extracted_customer = some (unlines (CUSTOMER_HEADER ::
        (data_lines fs.customer).filter
          (fun l => decide (strip (first_field l) ∈ (data_lines seed).map strip)))) ∧
      fs1.extracted_invoice = some (unlines (INVOICE_HEADER ::
        (data_lines fs.invoice).filter
          (fun l => decide (strip (first_field l) ∈ (data_lines seed).map strip)))) := by
  rw [extract_customer_data_eq]
  simp only [all_ne_nil_of_wellFormedSeed hs, all_copy_safe_of_wellFormedMaster hc,
    all_invoice_safe_of_wellFormedInvoice hi, all_copy_safe_of_noLeadingComma ht, if_true,
    h1, h2, h3]
  rw [← filter_keeps_eq_filter_strip zs hc zc,
    ← filter_keeps_eq_filter_strip zs (wellFormedMaster_of_wellFormedInvoice hi) zi]
  by_cases h4 : first_line fs.invoice_item = INVOICE_ITEM_HEADER
  · exact ⟨true, _, by rw [if_pos h4], rfl, rfl⟩
  · exact ⟨false, _, by rw [if_neg h4], rfl, rfl⟩

theorem extracted_customer_and_invoice_content_witness :
    first_line (some SUBSET_SAMPLE_FILE) = SAMPLE_HEADER ∧
    first_line DEFAULT_FILES.customer = CUSTOMER_HEADER ∧
    first_line DEFAULT_FILES.invoice = INVOICE_HEADER ∧
    WellFormedSeed (some SUBSET_SAMPLE_FILE) ∧ WellFormedMaster DEFAULT_FILES.customer ∧
    WellFormedInvoice DEFAULT_FILES.invoice ∧ NoLeadingComma DEFAULT_FILES.invoice_item ∧
    Sized (some SUBSET_SAMPLE_FILE) ∧ Sized DEFAULT_FILES.customer ∧
    Sized DEFAULT_FILES.invoice ∧
    ∃ b fs1, extract_customer_data (some SUBSET_SAMPLE_FILE) DEFAULT_FILES = some (b, fs1) ∧
      fs1.extracted_customer = some (unlines (CUSTOMER_HEADER ::
        (data_lines DEFAULT_FILES.customer).filter
          (fun l => decide (strip (first_field l) ∈
            (data_lines (some SUBSET_SAMPLE_FILE)).map strip)))) ∧
      fs1.extracted_invoice = some (unlines (INVOICE_HEADER ::
        (data_lines DEFAULT_FILES.invoice).filter
          (fun l => decide (strip (first_field l) ∈
            (data_lines (some SUBSET_SAMPLE_FILE)).map strip)))) :=
  ⟨by decide, by decide, by decide, by unfold WellFormedSeed; decide,
   by unfold WellFormedMaster; decide, by unfold WellFormedInvoice; decide,
   by unfold NoLeadingComma; decide, by unfold Sized; decide, by unfold Sized; decide,
   by unfold Sized; decide,
   extracted_customer_and_invoice_content (some SUBSET_SAMPLE_FILE) DEFAULT_FILES
     (by decide) (by decide) (by decide) (by unfold WellFormedSeed; decide)
     (by unfold WellFormedMaster; decide) (by unfold WellFormedInvoice; decide)
     (by unfold NoLeadingComma; decide) (by unfold Sized; decide) (by unfold Sized; decide)
     (by unfold Sized; decide)⟩

/-- Claim C4, at the failing input. The sample file holds the one code `C1`,
and the one data row of `invoice.csv` is `"C1"`, without a comma.  The run
returns `true`.  The row is extracted, and so is the row
`"C1","POCKY","10.40","250"` of `invoice_item.csv`, although its invoice code
`C1` is the second field of no extracted invoice row (the only one has an
empty second field): the second `getline` of `extract_invoices_and_items`,
whose result is not tested, fails at the end of the record and leaves the
customer code in `element`, which is then pushed as an invoice code.  The
soundness of the transitive closure fails on the files the run leaves. -/
theorem transitive_sound_failing_input :
    data_lines (some COMMALESS_SAMPLE_FILE) = ["\"C1\"".toList] ∧
    first_line COMMALESS_FILES.invoice = INVOICE_HEADER ∧
    data_lines COMMALESS_FILES.invoice = ["\"C1\"".toList] ∧
    data_lines COMMALESS_FILES.invoice_item = ["\"C1\",\"POCKY\",\"10.40\",\"250\"".toList] ∧
    ∃ fs1, extract_customer_data (some COMMALESS_SAMPLE_FILE) COMMALESS_FILES
        = some (true, fs1) ∧
      data_lines fs1.extracted_invoice = ["\"C1\"".toList] ∧
      second_field "\"C1\"".toList = [] ∧
      data_lines fs1.extracted_invoice_item =
        ["\"C1\",\"POCKY\",\"10.40\",\"250\"".toList] ∧
      ¬ TransitiveSound (some COMMALESS_SAMPLE_FILE) fs1 := by
  refine ⟨by decide, by decide, by decide, by decide,
    extracted_files (some COMMALESS_SAMPLE_FILE) COMMALESS_FILES, by decide, by decide,
    by decide, by decide, ?_⟩
  unfold TransitiveSound decoded_eq
  decide

/-- What a run that returns `true` guarantees on every input: each
extracted invoice row carries the code of a data line of the sample file, and
each extracted invoice item row carries the code that the loop of
`extract_invoices_and_items` took from an extracted invoice row, which is the
second field of the row when the row has a comma.  So the closure is sound
whenever every invoice row kept for the seed codes contains a comma. -/
theorem transitive_sound (seed : Option (List Char)) (fs fs1 : Files)
    (hrun : extract_customer_data seed fs = some (true, fs1)) :
    (∀ r ∈ data_lines fs1.extracted_invoice,
      ∃ s ∈ data_lines seed, decoded_eq (first_field r) s) ∧
    (∀ row ∈ data_lines fs1.extracted_invoice_item,
      ∃ r ∈ data_lines fs1.extracted_invoice,
        decoded_eq (first_field row) (harvest_field r)) ∧
    ((∀ l ∈ data_lines fs.invoice, keeps (seed_codes seed) l = true → ',' ∈ l) →
      TransitiveSound seed fs1) := by
  obtain ⟨_, hs, _, _, _, hi, _, _, rfl⟩ := (extract_customer_data_eq_true_iff seed fs fs1).1 hrun
  rw [List.all_eq_true] at hs hi
  have half2 : ∀ r ∈ data_lines (extracted_files seed fs).extracted_invoice,
      ∃ s ∈ data_lines seed, decoded_eq (first_field r) s := by
    rw [data_lines_extracted_invoice]
    intro r hr
    obtain ⟨_, hk⟩ := List.mem_filter.1 hr
    obtain ⟨hne, hmem⟩ := (keeps_iff _ _).1 hk
    unfold seed_codes at hmem
    obtain ⟨s, hs1, e⟩ := List.mem_map.1 hmem
    have hsne : s ≠ [] := by simpa using hs s hs1
    exact ⟨s, hs1, decoded_eq_of_trim_value hne hsne e.symm⟩
  have half1 : ∀ row ∈ data_lines (extracted_files seed fs).extracted_invoice_item,
      ∃ r ∈ data_lines (extracted_files seed fs).extracted_invoice,
        decoded_eq (first_field row) (harvest_field r) := by
    rw [data_lines_extracted_invoice_item, data_lines_extracted_invoice]
    intro row hrow
    obtain ⟨_, hk⟩ := List.mem_filter.1 hrow
    obtain ⟨hne, hmem⟩ := (keeps_iff _ _).1 hk
    obtain ⟨r, hr, hkr, e⟩ := mem_harvest.1 hmem
    have hsafe := hi r hr
    unfold invoice_safe at hsafe
    simp only [hkr, Bool.not_true, Bool.false_or, Bool.and_eq_true, decide_eq_true_eq] at hsafe
    exact ⟨r, List.mem_filter.2 ⟨hr, hkr⟩, decoded_eq_of_trim_value hne hsafe.2 e.symm⟩
  refine ⟨half2, half1, fun hcomma => ⟨?_, half2⟩⟩
  intro row hrow
  obtain ⟨r, hr, hd⟩ := half1 row hrow
  refine ⟨r, hr, ?_⟩
  rw [data_lines_extracted_invoice] at hr
  obtain ⟨hr1, hkr⟩ := List.mem_filter.1 hr
  have hh : harvest_field r = second_field r := by
    unfold harvest_field
    rw [if_pos (hcomma r hr1 hkr)]
  rw [← hh]
  exact hd

theorem transitive_sound_witness :
    extract_customer_data (some SUBSET_SAMPLE_FILE) DEFAULT_FILES =
      some (true, extracted_files (some SUBSET_SAMPLE_FILE) DEFAULT_FILES) ∧
    (∀ l ∈ data_lines DEFAULT_FILES.invoice,
      keeps (seed_codes (some SUBSET_SAMPLE_FILE)) l = true → ',' ∈ l) ∧
    TransitiveSound (some SUBSET_SAMPLE_FILE)
      (extracted_files (some SUBSET_SAMPLE_FILE) DEFAULT_FILES) :=
  ⟨by decide, by decide,
   (transitive_sound (some SUBSET_SAMPLE_FILE) DEFAULT_FILES _ (by decide)).2.2 (by decide)⟩

/-- Claim C5. After a run that returns `true` on well-formed invoice and invoice
item rows, the data rows of `extracted_invoice_item.csv` are, in the order of
`invoice_item.csv`, exactly its rows whose invoice code is the invoice code
(second field) of an invoice row whose customer code is a seed code: every
such row is present and their relative order is kept.  On the fixture with the
seed `CUST0000010231` these are the three rows of `IN0000001` and then the two
rows of `IN0000003`. -/
theorem transitive_complete (seed : Option (List Char)) (fs fs1 : Files)
    (hrun : extract_customer_data seed fs = some (true, fs1))
    (hi : WellFormedInvoice fs.invoice) (ht : WellFormedMaster fs.invoice_item) :
    (∀ row ∈ data_lines fs.invoice_item, in_closure seed fs.invoice row →
      row ∈ data_lines fs1.extracted_invoice_item) ∧
    data_lines fs1.extracted_invoice_item =
      (data_lines fs.invoice_item).filter (fun row => decide (in_closure seed fs.invoice row)) ∧
    ∃ fs2, extract_customer_data (some SUBSET2_SAMPLE_FILE) DEFAULT_FILES = some (true, fs2) ∧
      fs2.extracted_invoice_item = some SUBSET2_EXPECTED_INVOICE_ITEM := by
  obtain ⟨_, _, _, _, _, _, _, _, rfl⟩ := (extract_customer_data_eq_true_iff seed fs fs1).1 hrun
  have heq : data_lines (extracted_files seed fs).extracted_invoice_item =
      (data_lines fs.invoice_item).filter
        (fun row => decide (in_closure seed fs.invoice row)) := by
    rw [data_lines_extracted_invoice_item]
    apply List.filter_congr
    intro row hrow
    exact keeps_harvest_eq hi (ht row hrow)
  refine ⟨?_, heq, ?_⟩
  · intro row hrow hP
    rw [heq]
    exact List.mem_filter.2 ⟨hrow, decide_eq_true hP⟩
  · exact ⟨extracted_files (some SUBSET2_SAMPLE_FILE) DEFAULT_FILES, by decide, by decide⟩

theorem transitive_complete_witness :
    extract_customer_data (some SUBSET2_SAMPLE_FILE) DEFAULT_FILES =
      some (true, extracted_files (some SUBSET2_SAMPLE_FILE) DEFAULT_FILES) ∧
    WellFormedInvoice DEFAULT_FILES.invoice ∧ WellFormedMaster DEFAULT_FILES.invoice_item ∧
    data_lines (extracted_files (some SUBSET2_SAMPLE_FILE) DEFAULT_FILES).extracted_invoice_item
      = (data_lines DEFAULT_FILES.invoice_item).filter
          (fun row => decide (in_closure (some SUBSET2_SAMPLE_FILE) DEFAULT_FILES.invoice row)) :=
  ⟨by decide, by unfold WellFormedInvoice; decide, by unfold WellFormedMaster; decide,
   (transitive_complete (some SUBSET2_SAMPLE_FILE) DEFAULT_FILES _ (by decide)
     (by unfold WellFormedInvoice; decide) (by unfold WellFormedMaster; decide)).2.1⟩

/-- Claim C6. Two sample files with the right header and non-empty data lines
whose trimmed data lines form the same set (whatever their order and their
repetitions) make `set_customer_codes` leave the same key vector, and make
`extract_customer_data` end in the same way with the same files. -/
theorem duplicate_insensitive (seed1 seed2 : Option (List Char)) (fs : Files)
    (h1 : first_line seed1 = SAMPLE_HEADER) (h2 : first_line seed2 = SAMPLE_HEADER)
    (w1 : WellFormedSeed seed1) (w2 : WellFormedSeed seed2)
    (h12 : ∀ k ∈ seed_codes seed1, k ∈ seed_codes seed2)
    (h21 : ∀ k ∈ seed_codes seed2, k ∈ seed_codes seed1) :
    (∀ codes, ∃ v, set_customer_codes seed1 codes = some (true, v) ∧
      set_customer_codes seed2 codes = some (true, v)) ∧
    extract_customer_data seed1 fs = extract_customer_data seed2 fs := by
  have hset : ∀ codes, set_customer_codes seed1 codes = set_customer_codes seed2 codes := by
    intro codes
    rw [set_customer_codes_eq, set_customer_codes_eq, if_pos h1, if_pos h2,
      all_ne_nil_of_wellFormedSeed w1, all_ne_nil_of_wellFormedSeed w2]
    simp only [if_true]
    rw [unique_sort_congr]
    intro x
    simp only [List.mem_append]
    exact ⟨fun h => h.imp id (h12 x), fun h => h.imp id (h21 x)⟩
  constructor
  · intro codes
    refine ⟨unique (sort (codes ++ (data_lines seed2).map trim_value)), ?_, ?_⟩
    · rw [hset, set_customer_codes_eq, if_pos h2, all_ne_nil_of_wellFormedSeed w2]
      rfl
    · rw [set_customer_codes_eq, if_pos h2, all_ne_nil_of_wellFormedSeed w2]
      rfl
  · unfold extract_customer_data
    rw [hset]

theorem duplicate_insensitive_witness :
    first_line (some DUPLICATE_SAMPLE_FILE) = SAMPLE_HEADER ∧
    first_line (some DEFAULT_CUSTOMER_SAMPLE_FILE) = SAMPLE_HEADER ∧
    WellFormedSeed (some DUPLICATE_SAMPLE_FILE) ∧
    WellFormedSeed (some DEFAULT_CUSTOMER_SAMPLE_FILE) ∧
    extract_customer_data (some DUPLICATE_SAMPLE_FILE) DEFAULT_FILES =
      extract_customer_data (some DEFAULT_CUSTOMER_SAMPLE_FILE) DEFAULT_FILES :=
  ⟨by decide, by decide, by unfold WellFormedSeed; decide, by unfold WellFormedSeed; decide,
   (duplicate_insensitive (some DUPLICATE_SAMPLE_FILE) (some DEFAULT_CUSTOMER_SAMPLE_FILE)
     DEFAULT_FILES (by decide) (by decide) (by unfold WellFormedSeed; decide)
     (by unfold WellFormedSeed; decide) (by decide) (by decide)).2⟩

/-- Claim C7. Let the data rows of the master files be permuted (the first
lines staying as they are) and let the run on the original files return
`true`.  Then the run on the permuted files returns `true` as well, each of
the three extracted files has the same set of data rows as before, the data
rows of each extracted file form a subsequence of the data rows of its
permuted master, and when only `invoice.csv` changes
`extracted_invoice_item.csv` is the same text. -/
theorem order_invariance (seed : Option (List Char)) (fs fs' fs1 : Files)
    (hc : first_line fs'.customer = first_line fs.customer)
    (hi : first_line fs'.invoice = first_line fs.invoice)
    (ht : first_line fs'.invoice_item = first_line fs.invoice_item)
    (pc : (data_lines fs.customer).Perm (data_lines fs'.customer))
    (pi : (data_lines fs.invoice).Perm (data_lines fs'.invoice))
    (pt : (data_lines fs.invoice_item).Perm (data_lines fs'.invoice_item))
    (hrun : extract_customer_data seed fs = some (true, fs1)) :
    ∃ fs1', extract_customer_data seed fs' = some (true, fs1') ∧
      (∀ row, row ∈ data_lines fs1'.extracted_customer ↔
        row ∈ data_lines fs1.extracted_customer) ∧
      (∀ row, row ∈ data_lines fs1'.extracted_invoice ↔
        row ∈ data_lines fs1.extracted_invoice) ∧
      (∀ row, row ∈ data_lines fs1'.extracted_invoice_item ↔
        row ∈ data_lines fs1.extracted_invoice_item) ∧
      (data_lines fs1'.extracted_customer).Sublist (data_lines fs'.customer) ∧
      (data_lines fs1'.extracted_invoice).Sublist (data_lines fs'.invoice) ∧
      (data_lines fs1'.extracted_invoice_item).Sublist (data_lines fs'.invoice_item) ∧
      (fs'.invoice_item = fs.invoice_item →
        fs1'.extracted_invoice_item = fs1.extracted_invoice_item) := by
  obtain ⟨h1, h2, h3, h4, h5, h6, h7, h8, rfl⟩ :=
    (extract_customer_data_eq_true_iff seed fs fs1).1 hrun
  refine ⟨extracted_files seed fs', ?_, ?_, ?_, ?_, ?_, ?_, ?_, ?_⟩
  · rw [extract_customer_data_eq_true_iff]
    refine ⟨h1, h2, hc.trans h3, ?_, hi.trans h5, ?_, ht.trans h7, ?_, rfl⟩
    · rw [← all_congr_perm pc]; exact h4
    · rw [← all_congr_perm pi]; exact h6
    · rw [← all_congr_perm pt]; exact h8
  · intro row
    rw [data_lines_extracted_customer, data_lines_extracted_customer]
    exact (pc.filter _).mem_iff.symm
  · intro row
    rw [data_lines_extracted_invoice, data_lines_extracted_invoice]
    exact (pi.filter _).mem_iff.symm
  · intro row
    rw [data_lines_extracted_invoice_item, data_lines_extracted_invoice_item,
      List.mem_filter, List.mem_filter, keeps_congr (mem_harvest_perm pi), pt.mem_iff]
  · rw [data_lines_extracted_customer]; exact List.filter_sublist _
  · rw [data_lines_extracted_invoice]; exact List.filter_sublist _
  · rw [data_lines_extracted_invoice_item]; exact List.filter_sublist _
  · intro e
    show some _ = some _
    rw [e, extracted_text_congr _ (mem_harvest_perm pi)]

theorem order_invariance_witness :
    (data_lines DEFAULT_FILES.invoice).Perm (data_lines PERMUTED_INVOICE_FILES.invoice) ∧
    extract_customer_data (some DEFAULT_CUSTOMER_SAMPLE_FILE) DEFAULT_FILES =
      some (true, extracted_files (some DEFAULT_CUSTOMER_SAMPLE_FILE) DEFAULT_FILES) ∧
    ∃ fs1', extract_customer_data (some DEFAULT_CUSTOMER_SAMPLE_FILE) PERMUTED_INVOICE_FILES
        = some (true, fs1') ∧
      (data_lines fs1'.extracted_invoice).Sublist (data_lines PERMUTED_INVOICE_FILES.invoice) ∧
      fs1'.extracted_invoice_item =
        (extracted_files (some DEFAULT_CUSTOMER_SAMPLE_FILE) DEFAULT_FILES).extracted_invoice_item :=
  ⟨by decide, by decide,
   (order_invariance (some DEFAULT_CUSTOMER_SAMPLE_FILE) DEFAULT_FILES PERMUTED_INVOICE_FILES _
     rfl (by decide) rfl (List.Perm.refl _) (by decide) (List.Perm.refl _) (by decide)).imp
     (fun _ h => ⟨h.1, h.2.2.2.2.2.1, h.2.2.2.2.2.2.2 rfl⟩)⟩

/-- Claim C8. Let the four headers be right and let no seed code be the trimmed
first field of a data row of `customer.csv` or of `invoice.csv`.  Then the list
of collected invoice codes is empty; a run that returns at all returns `true`
and leaves each of the three extracted files as its header line followed by
one newline; and the run does return when no line raises an exception, that
is when no data line of the sample file is empty and no data line of a master
begins with a comma. -/
theorem empty_match_completeness (seed : Option (List Char)) (fs : Files)
    (h1 : first_line seed = SAMPLE_HEADER) (h2 : first_line fs.customer = CUSTOMER_HEADER)
    (h3 : first_line fs.invoice = INVOICE_HEADER)
    (h4 : first_line fs.invoice_item = INVOICE_ITEM_HEADER)
    (nc : ∀ l ∈ data_lines fs.customer, trim_value (first_field l) ∉ seed_codes seed)
    (ni : ∀ l ∈ data_lines fs.invoice, trim_value (first_field l) ∉ seed_codes seed) :
    harvest (seed_codes seed) (data_lines fs.invoice) = [] ∧
    (∀ b fs1, extract_customer_data seed fs = some (b, fs1) → b = true ∧ header_only fs1) ∧
    (WellFormedSeed seed → NoLeadingComma fs.customer → NoLeadingComma fs.invoice →
      NoLeadingComma fs.invoice_item →
      ∃ fs1, extract_customer_data seed fs = some (true, fs1) ∧ header_only fs1) := by
  have fc := filter_keeps_eq_nil nc
  have fi := filter_keeps_eq_nil ni
  refine ⟨?_, ?_, ?_⟩
  · unfold harvest
    rw [fi]
    rfl
  · intro b fs1 hrun
    obtain ⟨hb, rfl⟩ := extract_customer_data_of_headers h1 h2 h3 h4 hrun
    exact ⟨hb, header_only_extracted_files fc fi⟩
  · intro ws wc wi wt
    exact ⟨extracted_files seed fs, run_without_kept_rows h1 h2 h3 h4 ws wc wi wt fi,
      header_only_extracted_files fc fi⟩

theorem empty_match_completeness_witness :
    first_line (some NO_MATCH_SAMPLE_FILE) = SAMPLE_HEADER ∧
    (∀ l ∈ data_lines DEFAULT_FILES.customer,
      trim_value (first_field l) ∉ seed_codes (some NO_MATCH_SAMPLE_FILE)) ∧
    (∀ l ∈ data_lines DEFAULT_FILES.invoice,
      trim_value (first_field l) ∉ seed_codes (some NO_MATCH_SAMPLE_FILE)) ∧
    WellFormedSeed (some NO_MATCH_SAMPLE_FILE) ∧
    NoLeadingComma DEFAULT_FILES.customer ∧ NoLeadingComma DEFAULT_FILES.invoice ∧
    NoLeadingComma DEFAULT_FILES.invoice_item ∧
    ∃ fs1, extract_customer_data (some NO_MATCH_SAMPLE_FILE) DEFAULT_FILES = some (true, fs1) ∧
      header_only fs1 :=
  ⟨by decide, by decide, by decide, by unfold WellFormedSeed; decide,
   by unfold NoLeadingComma; decide, by unfold NoLeadingComma; decide,
   by unfold NoLeadingComma; decide,
   (empty_match_completeness (some NO_MATCH_SAMPLE_FILE) DEFAULT_FILES (by decide) (by decide)
     (by decide) (by decide) (by decide) (by decide)).2.2 (by unfold WellFormedSeed; decide)
     (by unfold NoLeadingComma; decide) (by unfold NoLeadingComma; decide)
     (by unfold NoLeadingComma; decide)⟩

/-- Claim C9. A sample file with the header line `"CUSTOMER_CODE"` and no data
line makes `set_customer_codes`, called on an empty vector, return `true` and
leave the vector empty; the run on it with valid master files (the right
headers, no data line that begins with a comma) returns `true` and leaves in
each extracted file the header line and one newline. -/
theorem header_only_seed (seed : Option (List Char)) (fs : Files)
    (h1 : first_line seed = SAMPLE_HEADER) (h0 : data_lines seed = [])
    (h2 : first_line fs.customer = CUSTOMER_HEADER)
    (h3 : first_line fs.invoice = INVOICE_HEADER)
    (h4 : first_line fs.invoice_item = INVOICE_ITEM_HEADER)
    (wc : NoLeadingComma fs.customer) (wi : NoLeadingComma fs.invoice)
    (wt : NoLeadingComma fs.invoice_item) :
    set_customer_codes seed [] = some (true, []) ∧
    ∃ fs1, extract_customer_data seed fs = some (true, fs1) ∧ header_only fs1 := by
  have hcodes : seed_codes seed = [] := by
    unfold seed_codes
    rw [h0]
    rfl
  have hnone : ∀ ls : List (List Char), ls.filter (keeps (seed_codes seed)) = [] := by
    intro ls
    rw [hcodes]
    exact filter_keeps_eq_nil (fun l _ => List.not_mem_nil _)
  have ws : WellFormedSeed seed := by
    intro l hl
    rw [h0] at hl
    exact absurd hl (List.not_mem_nil _)
  constructor
  · rw [set_customer_codes_eq, if_pos h1, h0]
    rfl
  · exact ⟨extracted_files seed fs, run_without_kept_rows h1 h2 h3 h4 ws wc wi wt (hnone _),
      header_only_extracted_files (hnone _) (hnone _)⟩

theorem header_only_seed_witness :
    first_line (some HEADER_ONLY_SAMPLE_FILE) = SAMPLE_HEADER ∧
    data_lines (some HEADER_ONLY_SAMPLE_FILE) = [] ∧
    set_customer_codes (some HEADER_ONLY_SAMPLE_FILE) [] = some (true, []) ∧
    ∃ fs1, extract_customer_data (some HEADER_ONLY_SAMPLE_FILE) DEFAULT_FILES
        = some (true, fs1) ∧ header_only fs1 :=
  ⟨by decide, by decide,
   header_only_seed (some HEADER_ONLY_SAMPLE_FILE) DEFAULT_FILES (by decide) (by decide)
     (by decide) (by decide) (by decide) (by unfold NoLeadingComma; decide)
     (by unfold NoLeadingComma; decide) (by unfold NoLeadingComma; decide)⟩

/-- Counterexample to claim C10 as stated: the data line `"CUST0000010231"` has no
comma, and `extract_customers` copies it for the key `CUST0000010231`; so does
the whole run for the sample file holding that code. -/
theorem commaless_line_counterexample :
    first_line COMMALESS_CUSTOMER_FILES.customer = CUSTOMER_HEADER ∧
    "\"CUST0000010231\"".toList ∈ data_lines COMMALESS_CUSTOMER_FILES.customer ∧
    ',' ∉ "\"CUST0000010231\"".toList ∧
    (∃ fs1, extract_customers ["CUST0000010231".toList] COMMALESS_CUSTOMER_FILES
        = some (true, fs1) ∧
      "\"CUST0000010231\"".toList ∈ data_lines fs1.extracted_customer) ∧
    (∃ fs1, extract_customer_data (some SUBSET2_SAMPLE_FILE) COMMALESS_CUSTOMER_FILES
        = some (true, fs1) ∧
      "\"CUST0000010231\"".toList ∈ data_lines fs1.extracted_customer) := by
  refine ⟨by decide, by decide, by decide, ⟨_, rfl, by decide⟩, ⟨_, rfl, by decide⟩⟩

/-- Claim C10, amended. In a master file with the right header whose data lines
raise no exception (none begins with a comma; in the invoice master a kept row
that has a comma has a second field), an empty data line is never copied and
does not make the stage fail, and a non-empty data line without a comma is
taken as a record of one field: it is copied exactly when the line, trimmed by
`substr(1, length - 2)`, is in the key vector.  This holds for the customer
master in `extract_customers`, for the invoice master and the invoice item
master in `extract_invoices_and_items` (the keys of the latter being the
codes harvested from the invoice master), and for the invoice item master in
`extract_invoice_items` called on any vector, which it sorts itself. -/
theorem commaless_line (codes : List (List Char)) (fs : Files) :
    (Ascending codes → first_line fs.customer = CUSTOMER_HEADER →
      NoLeadingComma fs.customer →
      ∃ fs1, extract_customers codes fs = some (true, fs1) ∧
        [] ∉ data_lines fs1.extracted_customer ∧
        ∀ l ∈ data_lines fs.customer, l ≠ [] → ',' ∉ l →
          (l ∈ data_lines fs1.extracted_customer ↔ trim_value l ∈ codes)) ∧
    (Ascending codes → first_line fs.invoice = INVOICE_HEADER →
      InvoiceSafe codes fs.invoice →
      NoLeadingComma fs.invoice_item →
      ∃ b fs1, extract_invoices_and_items codes fs = some (b, fs1) ∧
        [] ∉ data_lines fs1.extracted_invoice ∧
        (∀ l ∈ data_lines fs.invoice, l ≠ [] → ',' ∉ l →
          (l ∈ data_lines fs1.extracted_invoice ↔ trim_value l ∈ codes)) ∧
        [] ∉ data_lines fs1.extracted_invoice_item ∧
        (first_line fs.invoice_item = INVOICE_ITEM_HEADER →
          ∀ l ∈ data_lines fs.invoice_item, l ≠ [] → ',' ∉ l →
            (l ∈ data_lines fs1.extracted_invoice_item ↔
              trim_value l ∈ harvest codes (data_lines fs.invoice)))) ∧
    (∀ invoice_codes : List (List Char),
      first_line fs.invoice_item = INVOICE_ITEM_HEADER →
      NoLeadingComma fs.invoice_item →
      ∃ fs1, extract_invoice_items invoice_codes fs =
          some (true, unique (sort invoice_codes), fs1) ∧
        [] ∉ data_lines fs1.extracted_invoice_item ∧
        ∀ l ∈ data_lines fs.invoice_item, l ≠ [] → ',' ∉ l →
          (l ∈ data_lines fs1.extracted_invoice_item ↔ trim_value l ∈ invoice_codes)) := by
  obtain ⟨nc, ni, nt⟩ := newline_not_mem_headers
  refine ⟨?_, ?_, ?_⟩
  · intro hasc hh hsafe
    rw [extract_customers_eq hasc, if_pos hh, all_copy_safe_of_noLeadingComma hsafe, if_pos rfl]
    refine ⟨_, rfl, ?_, ?_⟩
    · show [] ∉ data_lines (some (extracted_text CUSTOMER_HEADER codes fs.customer))
      rw [data_lines_extracted_text nc]
      exact nil_not_mem_filter_keeps _ _
    · intro l hl hne hc
      show l ∈ data_lines (some (extracted_text CUSTOMER_HEADER codes fs.customer)) ↔ _
      rw [data_lines_extracted_text nc]
      exact mem_filter_keeps_of_commaless hl hne hc
  · intro hasc hh hsafe hitem
    rw [extract_invoices_and_items_eq hasc, if_pos hh, all_invoice_safe_of_invoiceSafe hsafe,
      if_pos rfl,
      all_copy_safe_of_noLeadingComma hitem, if_pos rfl]
    have key : ∀ fs1 : Files,
        fs1.extracted_invoice = some (extracted_text INVOICE_HEADER codes fs.invoice) →
        [] ∉ data_lines fs1.extracted_invoice ∧
        ∀ l ∈ data_lines fs.invoice, l ≠ [] → ',' ∉ l →
          (l ∈ data_lines fs1.extracted_invoice ↔ trim_value l ∈ codes) := by
      intro fs1 e
      rw [e, data_lines_extracted_text ni]
      exact ⟨nil_not_mem_filter_keeps _ _, fun l hl hne hc =>
        mem_filter_keeps_of_commaless hl hne hc⟩
    by_cases h4 : first_line fs.invoice_item = INVOICE_ITEM_HEADER
    · rw [if_pos h4]
      refine ⟨true, _, rfl, (key _ rfl).1, (key _ rfl).2, ?_, ?_⟩
      · show [] ∉ data_lines (some (extracted_text INVOICE_ITEM_HEADER _ fs.invoice_item))
        rw [data_lines_extracted_text nt]
        exact nil_not_mem_filter_keeps _ _
      · intro _ l hl hne hc
        show l ∈ data_lines (some (extracted_text INVOICE_ITEM_HEADER _ fs.invoice_item)) ↔ _
        rw [data_lines_extracted_text nt]
        exact mem_filter_keeps_of_commaless hl hne hc
    · rw [if_neg h4]
      refine ⟨false, _, rfl, (key _ rfl).1, (key _ rfl).2, ?_, fun h => absurd h h4⟩
      show [] ∉ data_lines (some [])
      rw [data_lines_some_nil]
      exact List.not_mem_nil _
  · intro v hh hsafe
    rw [extract_invoice_items_eq, if_pos hh, all_copy_safe_of_noLeadingComma hsafe, if_pos rfl]
    refine ⟨_, rfl, ?_, ?_⟩
    · show [] ∉ data_lines (some (extracted_text INVOICE_ITEM_HEADER v fs.invoice_item))
      rw [data_lines_extracted_text nt]
      exact nil_not_mem_filter_keeps _ _
    · intro l hl hne hc
      show l ∈ data_lines (some (extracted_text INVOICE_ITEM_HEADER v fs.invoice_item)) ↔ _
      rw [data_lines_extracted_text nt]
      exact mem_filter_keeps_of_commaless hl hne hc

theorem commaless_line_witness :
    Ascending ["CUST0000010231".toList] ∧
    first_line COMMALESS_CUSTOMER_FILES.customer = CUSTOMER_HEADER ∧
    NoLeadingComma COMMALESS_CUSTOMER_FILES.customer ∧
    ∃ fs1, extract_customers ["CUST0000010231".toList] COMMALESS_CUSTOMER_FILES
        = some (true, fs1) ∧
      [] ∉ data_lines fs1.extracted_customer ∧
      ∀ l ∈ data_lines COMMALESS_CUSTOMER_FILES.customer, l ≠ [] → ',' ∉ l →
        (l ∈ data_lines fs1.extracted_customer ↔
          trim_value l ∈ ["CUST0000010231".toList]) :=
  ⟨by unfold Ascending; decide, by decide, by unfold NoLeadingComma; decide,
   (commaless_line ["CUST0000010231".toList] COMMALESS_CUSTOMER_FILES).1
     (by unfold Ascending; decide) (by decide) (by unfold NoLeadingComma; decide)⟩

/-- Claim C11. For a sample file with the right header whose data lines are
non-empty and shorter than `2 ^ 64` characters, `set_customer_codes` called on
an empty vector returns `true` and leaves a vector that is strictly increasing
in the lexicographic order of the character codes (hence without two equal
elements), whose elements are exactly the data lines without their first and
last character; and `binary_search` on it answers `true` for exactly those
strings. -/
theorem set_customer_codes_sorted_set (seed : Option (List Char))
    (h1 : first_line seed = SAMPLE_HEADER) (ws : WellFormedSeed seed) (zs : Sized seed) :
    ∃ v, set_customer_codes seed [] = some (true, v) ∧
      StrictAscending v ∧
      v.Pairwise (List.Lex (fun x y : Char => x.toNat < y.toNat)) ∧
      v.Nodup ∧
      (∀ k, k ∈ v ↔ k ∈ (data_lines seed).map strip) ∧
      (∀ k, binary_search v k = true ↔ k ∈ (data_lines seed).map strip) := by
  have hv : StrictAscending (unique (sort ((data_lines seed).map trim_value))) :=
    strictAscending_unique (ascending_sort _)
  have hm : (data_lines seed).map trim_value = (data_lines seed).map strip :=
    seed_codes_eq_map_strip zs
  refine ⟨unique (sort ((data_lines seed).map trim_value)), ?_, hv,
    (strictAscending_iff_lex _).1 hv, strictAscending_nodup hv, ?_, ?_⟩
  · rw [set_customer_codes_eq, if_pos h1, all_ne_nil_of_wellFormedSeed ws]
    rfl
  · intro k
    rw [mem_unique_sort, hm]
  · intro k
    rw [binary_search_unique_sort, hm]

theorem set_customer_codes_sorted_set_witness :
    first_line (some DUPLICATE_SAMPLE_FILE) = SAMPLE_HEADER ∧
    WellFormedSeed (some DUPLICATE_SAMPLE_FILE) ∧ Sized (some DUPLICATE_SAMPLE_FILE) ∧
    set_customer_codes (some DUPLICATE_SAMPLE_FILE) [] =
      some (true, ["CUST0000010231".toList, "CUST0000010235".toList]) ∧
    ∃ v, set_customer_codes (some DUPLICATE_SAMPLE_FILE) [] = some (true, v) ∧
      StrictAscending v ∧
      v.Pairwise (List.Lex (fun x y : Char => x.toNat < y.toNat)) ∧
      v.Nodup ∧
      (∀ k, k ∈ v ↔ k ∈ (data_lines (some DUPLICATE_SAMPLE_FILE)).map strip) ∧
      (∀ k, binary_search v k = true ↔
        k ∈ (data_lines (some DUPLICATE_SAMPLE_FILE)).map strip) :=
  ⟨by decide, by unfold WellFormedSeed; decide, by unfold Sized; decide, by decide,
   set_customer_codes_sorted_set (some DUPLICATE_SAMPLE_FILE) (by decide)
     (by unfold WellFormedSeed; decide) (by unfold Sized; decide)⟩

/-- Claim C12. When the first line of the sample file is not the header
`"CUSTOMER_CODE"`, and in particular when the file is missing,
`set_customer_codes` returns `false` with the vector as it was and
`extract_customer_data` returns `false` with the six files as they were: none
of the three extracted files is created, truncated or modified. -/
theorem seed_header_mismatch_frame (seed : Option (List Char)) (fs : Files)
    (h : first_line seed ≠ SAMPLE_HEADER) :
    (∀ codes, set_customer_codes seed codes = some (false, codes)) ∧
    extract_customer_data seed fs = some (false, fs) ∧
    (∀ b fs1, extract_customer_data seed fs = some (b, fs1) →
      b = false ∧ fs1.extracted_customer = fs.extracted_customer ∧
      fs1.extracted_invoice = fs.extracted_invoice ∧
      fs1.extracted_invoice_item = fs.extracted_invoice_item) ∧
    extract_customer_data none fs = some (false, fs) := by
  have hrun : extract_customer_data seed fs = some (false, fs) := by
    rw [extract_customer_data_eq, if_neg h]
  refine ⟨?_, hrun, ?_, ?_⟩
  · intro codes
    rw [set_customer_codes_eq, if_neg h]
  · intro b fs1 e
    rw [hrun] at e
    simp only [Option.some.injEq, Prod.mk.injEq] at e
    obtain ⟨rfl, rfl⟩ := e
    exact ⟨rfl, rfl, rfl, rfl⟩
  · rw [extract_customer_data_eq, if_neg first_line_none_ne_sample_header]

theorem seed_header_mismatch_frame_witness :
    first_line (some BAD_HEADER_SAMPLE_FILE) ≠ SAMPLE_HEADER ∧
    extract_customer_data (some BAD_HEADER_SAMPLE_FILE) FILES_WITH_OLD_OUTPUT =
      some (false, FILES_WITH_OLD_OUTPUT) :=
  ⟨by decide,
   (seed_header_mismatch_frame (some BAD_HEADER_SAMPLE_FILE) FILES_WITH_OLD_OUTPUT
     (by decide)).2.1⟩

/-- Claim C13. A stage whose master does not begin with the expected header
returns `false` and leaves its destination empty (created or truncated, with
no header and no data row); every other file is as it was, so the destinations
of the later stages are untouched.  In the run as a whole, a customer header
mismatch leaves the extracted invoice and invoice item files as they were, and
an invoice header mismatch leaves the extracted invoice item file as it was
(a call of `extract_invoice_items` that returns always leaves that file
existing, empty or with the header). -/
theorem stage_header_mismatch_frame (codes : List (List Char)) (seed : Option (List Char))
    (fs : Files) :
    (first_line fs.customer ≠ CUSTOMER_HEADER →
      extract_customers codes fs = some (false, { fs with extracted_customer := some [] })) ∧
    (first_line fs.invoice ≠ INVOICE_HEADER →
      extract_invoices_and_items codes fs =
        some (false, { fs with extracted_invoice := some [] })) ∧
    (first_line fs.invoice_item ≠ INVOICE_ITEM_HEADER →
      extract_invoice_items codes fs =
        some (false, unique (sort codes), { fs with extracted_invoice_item := some [] })) ∧
    (∀ r, extract_invoice_items codes fs = some r → r.2.2.extracted_invoice_item ≠ none) ∧
    (first_line seed = SAMPLE_HEADER → WellFormedSeed seed →
      first_line fs.customer ≠ CUSTOMER_HEADER →
      extract_customer_data seed fs =
        some (false, { fs with extracted_customer := some [] })) ∧
    (first_line seed = SAMPLE_HEADER → WellFormedSeed seed →
      first_line fs.customer = CUSTOMER_HEADER → NoLeadingComma fs.customer →
      first_line fs.invoice ≠ INVOICE_HEADER →
      ∃ fs1, extract_customer_data seed fs = some (false, fs1) ∧
        fs1.extracted_invoice = some [] ∧
        fs1.extracted_invoice_item = fs.extracted_invoice_item) := by
  refine ⟨?_, ?_, ?_, ?_, ?_, ?_⟩
  · intro h
    unfold extract_customers
    simp only [getline_ifstream_snd, compare_ne_zero_iff]
    rw [if_pos h]
  · intro h
    unfold extract_invoices_and_items
    simp only [getline_ifstream_snd, compare_ne_zero_iff]
    rw [if_pos h]
  · intro h
    rw [extract_invoice_items_eq, if_neg h]
  · intro r hr
    rw [extract_invoice_items_eq] at hr
    split_ifs at hr <;>
    · simp only [Option.some.injEq] at hr
      rw [← hr]
      simp
  · intro h1 ws h
    rw [extract_customer_data_eq, if_pos h1, all_ne_nil_of_wellFormedSeed ws, if_pos rfl,
      if_neg h]
  · intro h1 ws h2 wc h
    rw [extract_customer_data_eq, if_pos h1, all_ne_nil_of_wellFormedSeed ws, if_pos rfl,
      if_pos h2, all_copy_safe_of_noLeadingComma wc, if_pos rfl, if_neg h]
    exact ⟨_, rfl, rfl, rfl⟩

theorem stage_header_mismatch_frame_witness :
    first_line (some DEFAULT_CUSTOMER_SAMPLE_FILE) = SAMPLE_HEADER ∧
    WellFormedSeed (some DEFAULT_CUSTOMER_SAMPLE_FILE) ∧
    first_line BAD_CUSTOMER_HEADER_FILES.customer ≠ CUSTOMER_HEADER ∧
    extract_customer_data (some DEFAULT_CUSTOMER_SAMPLE_FILE) BAD_CUSTOMER_HEADER_FILES =
      some (false, { BAD_CUSTOMER_HEADER_FILES with extracted_customer := some [] }) :=
  ⟨by decide, by unfold WellFormedSeed; decide, by decide,
   (stage_header_mismatch_frame [] (some DEFAULT_CUSTOMER_SAMPLE_FILE)
     BAD_CUSTOMER_HEADER_FILES).2.2.2.2.1 (by decide) (by unfold WellFormedSeed; decide)
     (by decide)⟩

/-- Claim C14, at the failing input. The key vector holds the one code `C1`
and the one data row of `invoice.csv` is `"C1"`, without a comma.  The row is
matched; it has no second field (its second field is empty and cannot be
decoded), and the loop harvests the code `C1` all the same, which is the
decoded first field of the row, the customer code: the second `getline` of
`extract_invoices_and_items`, whose result is not tested, fails at the end of
the record and leaves the first field in `element`.  The harvested vector is
not the list of the decoded second fields of the matched rows, and the stage
returns `true` with the invoice item row of code `C1` extracted. -/
theorem harvest_second_field_failing_input :
    Ascending ["C1".toList] ∧
    first_line COMMALESS_FILES.invoice = INVOICE_HEADER ∧
    data_lines COMMALESS_FILES.invoice = ["\"C1\"".toList] ∧
    keeps ["C1".toList] "\"C1\"".toList = true ∧
    first_field "\"C1\"".toList = "\"C1\"".toList ∧
    second_field "\"C1\"".toList = [] ∧
    trim_quotes (second_field "\"C1\"".toList) = none ∧
    harvested_invoice_codes ["C1".toList] COMMALESS_FILES = some ["C1".toList] ∧
    harvested_invoice_codes ["C1".toList] COMMALESS_FILES ≠
      some (((data_lines COMMALESS_FILES.invoice).filter (keeps ["C1".toList])).map
        (fun l => trim_value (second_field l))) ∧
    extract_invoices_and_items ["C1".toList] COMMALESS_FILES =
      some (true, { COMMALESS_FILES with
        extracted_invoice := some
          ("\"CUSTOMER_CODE\",\"INVOICE_CODE\",\"AMOUNT\",\"DATE\"\n" ++
           "\"C1\"\n").toList
        extracted_invoice_item := some
          ("\"INVOICE_CODE\",\"ITEM_CODE\",\"AMOUNT\",\"QUANTITY\"\n" ++
           "\"C1\",\"POCKY\",\"10.40\",\"250\"\n").toList }) := by
  refine ⟨by unfold Ascending; decide, by decide, by decide, by decide, by decide, by decide,
    by decide, by decide, by decide, by decide⟩

/-- What the harvest and `extract_invoice_items` guarantee on every input.
When every matched invoice row contains a comma, the vector that the invoice
stage harvests is, in source order and with repetitions, the list of the
decoded second fields of the matched rows (and the loop does get to the end
when no invoice row raises an exception); in general it is the list of the
codes taken from the matched rows, the first field standing in for the second
in a row without a comma.  `extract_invoice_items` depends only on the set of
the codes it is given: two vectors with the same elements give the same
outcome, output file included; and the vector it leaves is strictly
increasing, with the elements of the vector it was given. -/
theorem harvest_and_set_dependence (codes : List (List Char)) (fs : Files) :
    (Ascending codes →
      (∀ l ∈ data_lines fs.invoice, keeps codes l = true → ',' ∈ l) →
      (∀ v, harvested_invoice_codes codes fs = some v →
        v = ((data_lines fs.invoice).filter (keeps codes)).map
          (fun l => trim_value (second_field l))) ∧
      (InvoiceSafe codes fs.invoice →
        harvested_invoice_codes codes fs =
          some (((data_lines fs.invoice).filter (keeps codes)).map
            (fun l => trim_value (second_field l))))) ∧
    (Ascending codes → ∀ v, harvested_invoice_codes codes fs = some v →
      v = ((data_lines fs.invoice).filter (keeps codes)).map
        (fun l => trim_value (harvest_field l))) ∧
    (∀ v1 v2 : List (List Char), (∀ k, k ∈ v1 ↔ k ∈ v2) →
      extract_invoice_items v1 fs = extract_invoice_items v2 fs) ∧
    (∀ v r, extract_invoice_items v fs = some r →
      StrictAscending r.2.1 ∧ ∀ k, k ∈ r.2.1 ↔ k ∈ v) ∧
    (∀ v, NoLeadingComma fs.invoice_item → ∃ r, extract_invoice_items v fs = some r) := by
  refine ⟨fun hasc hcomma => ⟨?_, ?_⟩, ?_, ?_, ?_, ?_⟩
  · intro v hv
    rw [harvested_invoice_codes_eq hasc] at hv
    split_ifs at hv
    rw [← Option.some.inj hv]
    exact harvest_eq_map_second_field hcomma
  · intro hsafe
    rw [harvested_invoice_codes_eq hasc, all_invoice_safe_of_invoiceSafe hsafe, if_pos rfl,
      harvest_eq_map_second_field hcomma]
  · intro hasc v hv
    rw [harvested_invoice_codes_eq hasc] at hv
    split_ifs at hv
    rw [← Option.some.inj hv]
    rfl
  · intro v1 v2 h
    rw [extract_invoice_items_eq, extract_invoice_items_eq, unique_sort_congr h,
      extracted_text_congr _ h]
  · intro v r hr
    rw [extract_invoice_items_eq] at hr
    have key : r.2.1 = unique (sort v) := by
      split_ifs at hr <;>
      · rw [← Option.some.inj hr]
    rw [key]
    exact ⟨strictAscending_unique (ascending_sort v), fun k => mem_unique_sort⟩
  · intro v ht
    rw [extract_invoice_items_eq, all_copy_safe_of_noLeadingComma ht]
    by_cases h : first_line fs.invoice_item = INVOICE_ITEM_HEADER
    · exact ⟨_, by rw [if_pos h, if_pos rfl]⟩
    · exact ⟨_, by rw [if_neg h]⟩

theorem harvest_and_set_dependence_witness :
    Ascending ["CUST0000010231".toList] ∧
    (∀ l ∈ data_lines DEFAULT_FILES.invoice,
      keeps ["CUST0000010231".toList] l = true → ',' ∈ l) ∧
    InvoiceSafe ["CUST0000010231".toList] DEFAULT_FILES.invoice ∧
    harvested_invoice_codes ["CUST0000010231".toList] DEFAULT_FILES =
      some (((data_lines DEFAULT_FILES.invoice).filter (keeps ["CUST0000010231".toList])).map
        (fun l => trim_value (second_field l))) ∧
    harvested_invoice_codes ["CUST0000010231".toList] DEFAULT_FILES =
      some ["IN0000001".toList, "IN0000003".toList] :=
  ⟨by unfold Ascending; decide, by decide, by unfold InvoiceSafe; decide,
   ((harvest_and_set_dependence ["CUST0000010231".toList] DEFAULT_FILES).1
     (by unfold Ascending; decide) (by decide)).2 (by unfold InvoiceSafe; decide),
   by decide⟩

/-- Claim C15. An extracted file produced by a stage whose header check passed
begins with the header literal and a newline, and is the concatenation of its
lines, each followed by exactly one newline; its data lines are exactly the
lines of the master that are kept for the keys, unchanged and in the order of
the master.  So it is never empty and always ends in a newline.  A master
whose last line is not ended by a newline is read as the same master with the
newline added, the last line being what follows the last newline; when that
line is kept, each stage writes it followed by a newline, at the end of the
extracted file.  This holds for `extract_customers`, for
`extract_invoice_items`, for the invoice file of `extract_invoices_and_items`
and for the three files of a run that returns `true`. -/
theorem extracted_file_shape (codes : List (List Char)) (seed : Option (List Char))
    (fs : Files) :
    (Ascending codes → first_line fs.customer = CUSTOMER_HEADER →
      NoLeadingComma fs.customer →
      ∃ t, extract_customers codes fs = some (true, { fs with extracted_customer := some t }) ∧
        WellTerminated CUSTOMER_HEADER codes fs.customer t) ∧
    (first_line fs.invoice_item = INVOICE_ITEM_HEADER → NoLeadingComma fs.invoice_item →
      ∃ t, extract_invoice_items codes fs =
          some (true, unique (sort codes), { fs with extracted_invoice_item := some t }) ∧
        WellTerminated INVOICE_ITEM_HEADER codes fs.invoice_item t) ∧
    (Ascending codes → first_line fs.invoice = INVOICE_HEADER →
      InvoiceSafe codes fs.invoice → NoLeadingComma fs.invoice_item →
      ∃ b fs1 t, extract_invoices_and_items codes fs = some (b, fs1) ∧
        fs1.extracted_invoice = some t ∧ WellTerminated INVOICE_HEADER codes fs.invoice t) ∧
    (∀ fs1, extract_customer_data seed fs = some (true, fs1) →
      ∃ tc ti tt, fs1.extracted_customer = some tc ∧ fs1.extracted_invoice = some ti ∧
        fs1.extracted_invoice_item = some tt ∧
        WellTerminated CUSTOMER_HEADER (seed_codes seed) fs.customer tc ∧
        WellTerminated INVOICE_HEADER (seed_codes seed) fs.invoice ti ∧
        WellTerminated INVOICE_ITEM_HEADER
          (harvest (seed_codes seed) (data_lines fs.invoice)) fs.invoice_item tt) ∧
    (∀ c last : List Char, last ≠ [] → '\n' ∉ last →
      lines (some (c ++ '\n' :: last)) = lines (some (c ++ '\n' :: (last ++ ['\n']))) ∧
      data_lines (some (c ++ '\n' :: last)) = data_lines (some (c ++ ['\n'])) ++ [last]) ∧
    (∀ c last : List Char, last ≠ [] → '\n' ∉ last → keeps codes last = true →
      (fs.customer = some (c ++ '\n' :: last) → Ascending codes →
        first_line fs.customer = CUSTOMER_HEADER → NoLeadingComma fs.customer →
        extract_customers codes fs = some (true, { fs with
          extracted_customer := some (unlines (CUSTOMER_HEADER ::
            (data_lines (some (c ++ ['\n']))).filter (keeps codes)) ++ (last ++ ['\n'])) })) ∧
      (fs.invoice_item = some (c ++ '\n' :: last) →
        first_line fs.invoice_item = INVOICE_ITEM_HEADER → NoLeadingComma fs.invoice_item →
        extract_invoice_items codes fs = some (true, unique (sort codes), { fs with
          extracted_invoice_item := some (unlines (INVOICE_ITEM_HEADER ::
            (data_lines (some (c ++ ['\n']))).filter (keeps codes)) ++ (last ++ ['\n'])) })) ∧
      (fs.invoice = some (c ++ '\n' :: last) → Ascending codes →
        first_line fs.invoice = INVOICE_HEADER → InvoiceSafe codes fs.invoice →
        NoLeadingComma fs.invoice_item →
        ∃ b fs1, extract_invoices_and_items codes fs = some (b, fs1) ∧
          fs1.extracted_invoice = some (unlines (INVOICE_HEADER ::
            (data_lines (some (c ++ ['\n']))).filter (keeps codes)) ++ (last ++ ['\n'])))) ∧
    (∃ fs1, extract_customer_data (some DEFAULT_CUSTOMER_SAMPLE_FILE)
        UNTERMINATED_CUSTOMER_FILES = some (true, fs1) ∧
      fs1.extracted_customer = some DEFAULT_CUSTOMER_FILE) := by
  obtain ⟨nc, ni, nt⟩ := newline_not_mem_headers
  refine ⟨?_, ?_, ?_, ?_, ?_, ?_, ?_⟩
  · intro hasc hh hs
    rw [extract_customers_eq hasc, if_pos hh, all_copy_safe_of_noLeadingComma hs, if_pos rfl]
    exact ⟨_, rfl, wellTerminated_extracted_text nc codes fs.customer⟩
  · intro hh hs
    rw [extract_invoice_items_eq, if_pos hh, all_copy_safe_of_noLeadingComma hs, if_pos rfl]
    exact ⟨_, rfl, wellTerminated_extracted_text nt codes fs.invoice_item⟩
  · intro hasc hh hs ht
    rw [extract_invoices_and_items_eq hasc, if_pos hh, all_invoice_safe_of_invoiceSafe hs,
      if_pos rfl, all_copy_safe_of_noLeadingComma ht, if_pos rfl]
    by_cases h4 : first_line fs.invoice_item = INVOICE_ITEM_HEADER
    · rw [if_pos h4]
      exact ⟨true, _, _, rfl, rfl, wellTerminated_extracted_text ni codes fs.invoice⟩
    · rw [if_neg h4]
      exact ⟨false, _, _, rfl, rfl, wellTerminated_extracted_text ni codes fs.invoice⟩
  · intro fs1 hrun
    obtain ⟨_, _, _, _, _, _, _, _, rfl⟩ :=
      (extract_customer_data_eq_true_iff seed fs fs1).1 hrun
    exact ⟨_, _, _, rfl, rfl, rfl, wellTerminated_extracted_text nc _ _,
      wellTerminated_extracted_text ni _ _, wellTerminated_extracted_text nt _ _⟩
  · intro c last hne hl
    obtain ⟨e1, e2⟩ := lines_unterminated c hne hl
    exact ⟨by rw [e1, e2], data_lines_unterminated c hne hl⟩
  · intro c last hne hl hk
    refine ⟨?_, ?_, ?_⟩
    · intro hf hasc hh hs
      have hd : data_lines fs.customer = data_lines (some (c ++ ['\n'])) ++ [last] := by
        rw [hf]
        exact data_lines_unterminated c hne hl
      rw [extract_customers_eq hasc, if_pos hh, all_copy_safe_of_noLeadingComma hs, if_pos rfl,
        extracted_text_concat hd hk]
    · intro hf hh hs
      have hd : data_lines fs.invoice_item = data_lines (some (c ++ ['\n'])) ++ [last] := by
        rw [hf]
        exact data_lines_unterminated c hne hl
      rw [extract_invoice_items_eq, if_pos hh, all_copy_safe_of_noLeadingComma hs, if_pos rfl,
        extracted_text_concat hd hk]
    · intro hf hasc hh hs ht
      have hd : data_lines fs.invoice = data_lines (some (c ++ ['\n'])) ++ [last] := by
        rw [hf]
        exact data_lines_unterminated c hne hl
      rw [extract_invoices_and_items_eq hasc, if_pos hh, all_invoice_safe_of_invoiceSafe hs,
        if_pos rfl, all_copy_safe_of_noLeadingComma ht, if_pos rfl]
      by_cases h4 : first_line fs.invoice_item = INVOICE_ITEM_HEADER
      · rw [if_pos h4]
        exact ⟨true, _, rfl, by rw [← extracted_text_concat hd hk]⟩
      · rw [if_neg h4]
        exact ⟨false, _, rfl, by rw [← extracted_text_concat hd hk]⟩
  · exact ⟨_, rfl, by decide⟩

theorem extracted_file_shape_witness :
    Ascending ["CUST0000010231".toList, "CUST0000010235".toList] ∧
    first_line UNTERMINATED_CUSTOMER_FILES.customer = CUSTOMER_HEADER ∧
    NoLeadingComma UNTERMINATED_CUSTOMER_FILES.customer ∧
    '\n' ∉ "\"CUST0000010235\",\"George\",\"Lucas\"".toList ∧
    keeps ["CUST0000010231".toList, "CUST0000010235".toList]
      "\"CUST0000010235\",\"George\",\"Lucas\"".toList = true ∧
    UNTERMINATED_CUSTOMER_FILES.customer =
      some (("\"CUSTOMER_CODE\",\"FIRSTNAME\",\"LASTNAME\"\n" ++
          "\"CUST0000010231\",\"Maria\",\"Alba\"").toList ++
        '\n' :: "\"CUST0000010235\",\"George\",\"Lucas\"".toList) ∧
    extract_customers ["CUST0000010231".toList, "CUST0000010235".toList]
        UNTERMINATED_CUSTOMER_FILES =
      some (true, { UNTERMINATED_CUSTOMER_FILES with
        extracted_customer := some (unlines (CUSTOMER_HEADER ::
          (data_lines (some (("\"CUSTOMER_CODE\",\"FIRSTNAME\",\"LASTNAME\"\n" ++
            "\"CUST0000010231\",\"Maria\",\"Alba\"").toList ++ ['\n']))).filter
              (keeps ["CUST0000010231".toList, "CUST0000010235".toList])) ++
          ("\"CUST0000010235\",\"George\",\"Lucas\"".toList ++ ['\n'])) }) :=
  ⟨by unfold Ascending; decide, by decide, by unfold NoLeadingComma; decide, by decide,
   by decide, by decide,
   ((extracted_file_shape ["CUST0000010231".toList, "CUST0000010235".toList] none
     UNTERMINATED_CUSTOMER_FILES).2.2.2.2.2.1
       ("\"CUSTOMER_CODE\",\"FIRSTNAME\",\"LASTNAME\"\n" ++
          "\"CUST0000010231\",\"Maria\",\"Alba\"").toList
       "\"CUST0000010235\",\"George\",\"Lucas\"".toList (by decide) (by decide)
       (by decide)).1 (by decide) (by unfold Ascending; decide) (by decide)
       (by unfold NoLeadingComma; decide)⟩

/-- Claim C16. After a run that returns `true`, a second run with the same
sample file in which the three extracted files take the place of the three
master files returns `true` as well and leaves the same three extracted
files; the invoice codes it harvests are those of the first run. -/
theorem extraction_idempotent (seed : Option (List Char)) (fs fs1 fs2 : Files)
    (hrun : extract_customer_data seed fs = some (true, fs1))
    (hc : fs2.customer = fs1.extracted_customer)
    (hi : fs2.invoice = fs1.extracted_invoice)
    (ht : fs2.invoice_item = fs1.extracted_invoice_item) :
    ∃ fs3, extract_customer_data seed fs2 = some (true, fs3) ∧
      fs3.extracted_customer = fs1.extracted_customer ∧
      fs3.extracted_invoice = fs1.extracted_invoice ∧
      fs3.extracted_invoice_item = fs1.extracted_invoice_item ∧
      harvest (seed_codes seed) (data_lines fs2.invoice) =
        harvest (seed_codes seed) (data_lines fs.invoice) := by
  obtain ⟨nc, ni, nt⟩ := newline_not_mem_headers
  obtain ⟨h1, h2, _, h4, _, h6, _, h8, rfl⟩ :=
    (extract_customer_data_eq_true_iff seed fs fs1).1 hrun
  have ec : fs2.customer = some (extracted_text CUSTOMER_HEADER (seed_codes seed) fs.customer) :=
    hc
  have ei : fs2.invoice = some (extracted_text INVOICE_HEADER (seed_codes seed) fs.invoice) :=
    hi
  have et : fs2.invoice_item = some (extracted_text INVOICE_ITEM_HEADER
      (harvest (seed_codes seed) (data_lines fs.invoice)) fs.invoice_item) := ht
  have dc := data_lines_extracted_text nc (seed_codes seed) fs.customer
  have di := data_lines_extracted_text ni (seed_codes seed) fs.invoice
  have dt := data_lines_extracted_text nt
    (harvest (seed_codes seed) (data_lines fs.invoice)) fs.invoice_item
  have hh : harvest (seed_codes seed) (data_lines fs2.invoice) =
      harvest (seed_codes seed) (data_lines fs.invoice) := by
    rw [ei, di, harvest_filter_keeps]
  refine ⟨extracted_files seed fs2, ?_, ?_, ?_, ?_, hh⟩
  · rw [extract_customer_data_eq_true_iff]
    refine ⟨h1, h2, ?_, ?_, ?_, ?_, ?_, ?_, rfl⟩
    · rw [ec]; exact first_line_extracted_text nc _ _
    · rw [ec, dc]; exact all_filter_of_all _ h4
    · rw [ei]; exact first_line_extracted_text ni _ _
    · rw [ei, di]; exact all_filter_of_all _ h6
    · rw [et]; exact first_line_extracted_text nt _ _
    · rw [et, dt]; exact all_filter_of_all _ h8
  · show some (extracted_text CUSTOMER_HEADER (seed_codes seed) fs2.customer) = some _
    rw [ec, extracted_text_idem nc]
  · show some (extracted_text INVOICE_HEADER (seed_codes seed) fs2.invoice) = some _
    rw [ei, extracted_text_idem ni]
  · show some (extracted_text INVOICE_ITEM_HEADER
      (harvest (seed_codes seed) (data_lines fs2.invoice)) fs2.invoice_item) = some _
    rw [hh, et, extracted_text_idem nt]

theorem extraction_idempotent_witness :
    extract_customer_data (some SUBSET2_SAMPLE_FILE) DEFAULT_FILES =
      some (true, extracted_files (some SUBSET2_SAMPLE_FILE) DEFAULT_FILES) ∧
    ∃ fs3, extract_customer_data (some SUBSET2_SAMPLE_FILE)
        (reuse_as_masters (extracted_files (some SUBSET2_SAMPLE_FILE) DEFAULT_FILES))
          = some (true, fs3) ∧
      fs3.extracted_customer =
        (extracted_files (some SUBSET2_SAMPLE_FILE) DEFAULT_FILES).extracted_customer ∧
      fs3.extracted_invoice =
        (extracted_files (some SUBSET2_SAMPLE_FILE) DEFAULT_FILES).extracted_invoice ∧
      fs3.extracted_invoice_item =
        (extracted_files (some SUBSET2_SAMPLE_FILE) DEFAULT_FILES).extracted_invoice_item :=
  ⟨by decide,
   (extraction_idempotent (some SUBSET2_SAMPLE_FILE) DEFAULT_FILES _
     (reuse_as_masters (extracted_files (some SUBSET2_SAMPLE_FILE) DEFAULT_FILES))
     (by decide) rfl rfl rfl).imp (fun _ h => ⟨h.1, h.2.1, h.2.2.1, h.2.2.2.1⟩)⟩

/-- Claim C17. Let two runs on the same master files return `true`, the codes
of the first sample file being among the codes of the second.  Then the data
rows of each of the three files extracted for the first sample file form a
subsequence of the data rows of the file extracted for the second. -/
theorem seed_monotone (seedA seedB : Option (List Char)) (fs fsA fsB : Files)
    (hsub : ∀ k ∈ seed_codes seedA, k ∈ seed_codes seedB)
    (hA : extract_customer_data seedA fs = some (true, fsA))
    (hB : extract_customer_data seedB fs = some (true, fsB)) :
    (data_lines fsA.extracted_customer).Sublist (data_lines fsB.extracted_customer) ∧
    (data_lines fsA.extracted_invoice).Sublist (data_lines fsB.extracted_invoice) ∧
    (data_lines fsA.extracted_invoice_item).Sublist
      (data_lines fsB.extracted_invoice_item) := by
  obtain ⟨_, _, _, _, _, _, _, _, rfl⟩ := (extract_customer_data_eq_true_iff seedA fs fsA).1 hA
  obtain ⟨_, _, _, _, _, _, _, _, rfl⟩ := (extract_customer_data_eq_true_iff seedB fs fsB).1 hB
  have hk : ∀ l, keeps (seed_codes seedA) l = true → keeps (seed_codes seedB) l = true := by
    intro l h
    obtain ⟨h1, h2⟩ := (keeps_iff _ _).1 h
    exact (keeps_iff _ _).2 ⟨h1, hsub _ h2⟩
  have hh : ∀ l, keeps (harvest (seed_codes seedA) (data_lines fs.invoice)) l = true →
      keeps (harvest (seed_codes seedB) (data_lines fs.invoice)) l = true := by
    intro l h
    obtain ⟨h1, h2⟩ := (keeps_iff _ _).1 h
    obtain ⟨r, hr, hkr, e⟩ := mem_harvest.1 h2
    exact (keeps_iff _ _).2 ⟨h1, mem_harvest.2 ⟨r, hr, hk r hkr, e⟩⟩
  rw [data_lines_extracted_customer, data_lines_extracted_customer,
    data_lines_extracted_invoice, data_lines_extracted_invoice,
    data_lines_extracted_invoice_item, data_lines_extracted_invoice_item]
  exact ⟨List.monotone_filter_right _ hk, List.monotone_filter_right _ hk,
    List.monotone_filter_right _ hh⟩

theorem seed_monotone_witness :
    (∀ k ∈ seed_codes (some SUBSET_SAMPLE_FILE),
      k ∈ seed_codes (some DEFAULT_CUSTOMER_SAMPLE_FILE)) ∧
    extract_customer_data (some SUBSET_SAMPLE_FILE) DEFAULT_FILES =
      some (true, extracted_files (some SUBSET_SAMPLE_FILE) DEFAULT_FILES) ∧
    extract_customer_data (some DEFAULT_CUSTOMER_SAMPLE_FILE) DEFAULT_FILES =
      some (true, extracted_files (some DEFAULT_CUSTOMER_SAMPLE_FILE) DEFAULT_FILES) ∧
    (data_lines (extracted_files (some SUBSET_SAMPLE_FILE) DEFAULT_FILES).extracted_invoice_item
      ).Sublist
      (data_lines
        (extracted_files (some DEFAULT_CUSTOMER_SAMPLE_FILE) DEFAULT_FILES).extracted_invoice_item) :=
  ⟨by decide, by decide, by decide,
   (seed_monotone (some SUBSET_SAMPLE_FILE) (some DEFAULT_CUSTOMER_SAMPLE_FILE) DEFAULT_FILES _ _
     (by decide) (by decide) (by decide)).2.2⟩

/-- Claim C18. The expression `s.substr(1, s.length() - 2)` is out of range
exactly when `s` is empty.  When no data line of the sample file is empty, no
data line of a master begins with a comma and every invoice row that is kept
has a non-empty second field, no exception is raised and
`extract_customer_data` returns a boolean.  A sample file with the right
header and an empty data line makes `set_customer_codes` raise the exception
instead of returning (and so `extract_customer_data`); this is the only way in
which `set_customer_codes` does not return. -/
theorem substr_safety (seed : Option (List Char)) (fs : Files) :
    (∀ s, trim_quotes s = none ↔ s = []) ∧
    (∀ s, s ≠ [] → trim_quotes s = some ((s.drop 1).take (size_sub s.length 2))) ∧
    (WellFormedSeed seed → NoLeadingComma fs.customer → NoLeadingComma fs.invoice →
      NoLeadingComma fs.invoice_item → MatchedHaveSecondField (seed_codes seed) fs.invoice →
      ∃ b fs1, extract_customer_data seed fs = some (b, fs1)) ∧
    (∀ codes, set_customer_codes seed codes = none ↔
      first_line seed = SAMPLE_HEADER ∧ [] ∈ data_lines seed) ∧
    (first_line seed = SAMPLE_HEADER → [] ∈ data_lines seed →
      extract_customer_data seed fs = none) ∧
    set_customer_codes (some BLANK_LINE_SAMPLE_FILE) [] = none := by
  refine ⟨fun s => trim_quotes_eq_none_iff, fun s hs => trim_quotes_of_ne_nil hs, ?_,
    set_customer_codes_eq_none_iff seed, ?_, by decide⟩
  · intro ws wc wi wt hm
    have hsafe := all_invoice_safe_of_invoiceSafe (invoiceSafe_of_matchedHaveSecondField wi hm)
    rw [extract_customer_data_eq]
    simp only [all_ne_nil_of_wellFormedSeed ws, all_copy_safe_of_noLeadingComma wc,
      all_copy_safe_of_noLeadingComma wt, hsafe, if_true]
    by_cases h1 : first_line seed = SAMPLE_HEADER
    swap
    · exact ⟨_, _, by rw [if_neg h1]⟩
    by_cases h2 : first_line fs.customer = CUSTOMER_HEADER
    swap
    · exact ⟨_, _, by rw [if_pos h1, if_neg h2]⟩
    by_cases h3 : first_line fs.invoice = INVOICE_HEADER
    swap
    · exact ⟨_, _, by rw [if_pos h1, if_pos h2, if_neg h3]⟩
    by_cases h4 : first_line fs.invoice_item = INVOICE_ITEM_HEADER
    swap
    · exact ⟨_, _, by rw [if_pos h1, if_pos h2, if_pos h3, if_neg h4]⟩
    exact ⟨_, _, by rw [if_pos h1, if_pos h2, if_pos h3, if_pos h4]⟩
  · intro h1 h0
    rw [extract_customer_data_eq, if_pos h1, (all_ne_nil_eq_false_iff _).2 h0]
    rfl

theorem substr_safety_witness :
    WellFormedSeed (some DEFAULT_CUSTOMER_SAMPLE_FILE) ∧
    NoLeadingComma DEFAULT_FILES.customer ∧ NoLeadingComma DEFAULT_FILES.invoice ∧
    NoLeadingComma DEFAULT_FILES.invoice_item ∧
    MatchedHaveSecondField (seed_codes (some DEFAULT_CUSTOMER_SAMPLE_FILE))
      DEFAULT_FILES.invoice ∧
    (∃ b fs1, extract_customer_data (some DEFAULT_CUSTOMER_SAMPLE_FILE) DEFAULT_FILES
      = some (b, fs1)) ∧
    first_line (some BLANK_LINE_SAMPLE_FILE) = SAMPLE_HEADER ∧
    [] ∈ data_lines (some BLANK_LINE_SAMPLE_FILE) ∧
    extract_customer_data (some BLANK_LINE_SAMPLE_FILE) DEFAULT_FILES = none :=
  ⟨by unfold WellFormedSeed; decide, by unfold NoLeadingComma; decide,
   by unfold NoLeadingComma; decide, by unfold NoLeadingComma; decide,
   by unfold MatchedHaveSecondField; decide,
   (substr_safety (some DEFAULT_CUSTOMER_SAMPLE_FILE) DEFAULT_FILES).2.2.1
     (by unfold WellFormedSeed; decide) (by unfold NoLeadingComma; decide)
     (by unfold NoLeadingComma; decide) (by unfold NoLeadingComma; decide)
     (by unfold MatchedHaveSecondField; decide),
   by decide, by decide,
   (substr_safety (some BLANK_LINE_SAMPLE_FILE) DEFAULT_FILES).2.2.2.2.1
     (by decide) (by decide)⟩

end DreamCandies
